import Mathlib

/-!
# QueryCraft: verification of the natural-language → SQL pipeline

Shallow embedding of `querycraft/services.py` (`SQLAgent`): the SQL
extractor `_clean_sql_query`, the validator `_validate_sql`, the three
LangGraph nodes, the conditional `_should_execute` edge, and the
top-level `process_question` result mapping.

Conventions of the embedding:
* Python strings are modelled as Lean `String`/`List Char`; the string
  primitives used by the source (`strip`, `upper`, `lower`, `split`,
  `startswith`, `in`, `endswith`) are re-implemented below with Python's
  semantics on ASCII text (Python additionally handles non-ASCII
  whitespace/case, which the pipeline never relies on).
* The two regular expressions of the source are compiled by hand:
  `\b(SELECT|WITH|INSERT|UPDATE|DELETE)\b.*?(?:;|$)` under
  `re.IGNORECASE | re.DOTALL` (where `$` matches at the end of the text
  or just before a final newline, and the lazy `.*?(?:;|$)` stops at the
  first semicolon), and `^\s*(SELECT|WITH|INSERT|UPDATE|DELETE)\b` used
  on already-stripped lines.
* The external effects (the Ollama completion call, the `EXPLAIN` syntax
  probe, and cursor execution) are oracles passed in as parameters, so
  every run of the state machine is a total function of the oracles.
-/

namespace QueryCraft

/-- Python `str.strip()` whitespace set (ASCII part). -/
def isPySpace (c : Char) : Bool :=
  c = ' ' || c = '\t' || c = '\n' || c = '\x0d' || c = '\x0b' || c = '\x0c'

/-- Python regex `\w` word character (ASCII part): `[A-Za-z0-9_]`. -/
def isWordChar (c : Char) : Bool :=
  ('a' ≤ c && c ≤ 'z') || ('A' ≤ c && c ≤ 'Z') || ('0' ≤ c && c ≤ '9') || c = '_'

/-- Drop trailing characters satisfying `p` (used for the right half of `strip`). -/
def dropTrail (p : Char → Bool) (s : List Char) : List Char :=
  (s.reverse.dropWhile p).reverse

/-- Python `str.strip()` on a character list. -/
def pyStrip (s : List Char) : List Char :=
  dropTrail isPySpace (s.dropWhile isPySpace)

/-- Python substring containment `sub in hay` on character lists. -/
def containsL (hay sub : List Char) : Bool :=
  if sub.isPrefixOf hay then true
  else
    match hay with
    | [] => false
    | _ :: t => containsL t sub

/-- Python `str.split("\n")`. -/
def splitNL : List Char → List (List Char)
  | [] => [[]]
  | '\n' :: t => [] :: splitNL t
  | c :: t =>
    match splitNL t with
    | [] => [[c]]
    | p :: ps => (c :: p) :: ps

/-- The markdown fence delimiter (three backticks, written with escapes). -/
def fence : List Char := ['\x60', '\x60', '\x60']

/-- Python `str.split("```")`: greedy leftmost non-overlapping splitting. -/
def splitFence : List Char → List (List Char)
  | [] => [[]]
  | '\x60' :: '\x60' :: '\x60' :: t => [] :: splitFence t
  | c :: t =>
    match splitFence t with
    | [] => [[c]]
    | p :: ps => (c :: p) :: ps

/-- Python `" ".join(lines)`. -/
def joinSpace : List (List Char) → List Char
  | [] => []
  | [l] => l
  | l :: ls => l ++ ' ' :: joinSpace ls

/-- Python `s.endswith(";")`. -/
def endsWithSemi (s : List Char) : Bool := s.getLast? = some ';'

/-- The five statement keywords of the extraction regex, in pattern order. -/
def kwList : List (List Char) :=
  [['S','E','L','E','C','T'], ['W','I','T','H'],
   ['I','N','S','E','R','T'], ['U','P','D','A','T','E'],
   ['D','E','L','E','T','E']]

/-- Case-insensitive keyword match at the head of `s` (regex `(KW)` under `re.IGNORECASE`). -/
def matchesCI (kw s : List Char) : Bool :=
  (s.take kw.length).map Char.toUpper == kw

/-- Word boundary `\b` before the keyword: start of text or a preceding non-word character. -/
def boundaryBefore : Option Char → Bool
  | none => true
  | some c => !(isWordChar c)

/-- Word boundary `\b` after the keyword: end of text or a following non-word character. -/
def boundaryAfter (n : Nat) (s : List Char) : Bool :=
  match s.drop n with
  | [] => true
  | c :: _ => !(isWordChar c)

/-- Try each keyword of `L` at the current position (boundaries included);
return the length of the first that matches. -/
def kwLenAtList (L : List (List Char)) (prev : Option Char) (s : List Char) : Option Nat :=
  match L with
  | [] => none
  | kw :: kws =>
    if boundaryBefore prev && matchesCI kw s && boundaryAfter kw.length s then some kw.length
    else kwLenAtList kws prev s

/-- `\b(SELECT|WITH|INSERT|UPDATE|DELETE)\b` tried at one position. -/
def kwLenAt (prev : Option Char) (s : List Char) : Option Nat :=
  kwLenAtList kwList prev s

/-- The lazy tail `.*?(?:;|$)` under `re.DOTALL` (no `re.MULTILINE`):
consume as little as possible until a `;` (included) or until `$`,
which matches at the end of the text or just before a final newline. -/
def lazyEnd : List Char → List Char
  | [] => []
  | c :: t =>
    if c = ';' then [';']
    else if c = '\n' && t.isEmpty then []
    else c :: lazyEnd t

/-- `re.search` scan: try the pattern at each position, leftmost match wins;
`prev` carries the character before the current position for `\b`. -/
def regexFindAux (prev : Option Char) (s : List Char) : Option (List Char) :=
  match kwLenAt prev s with
  | some n => some (s.take n ++ lazyEnd (s.drop n))
  | none =>
    match s with
    | [] => none
    | c :: t => regexFindAux (some c) t

/-- `re.search(r'\b(SELECT|WITH|INSERT|UPDATE|DELETE)\b.*?(?:;|$)', s, re.IGNORECASE | re.DOTALL)`,
returning `match.group(0)`. -/
def regexFind (s : List Char) : Option (List Char) := regexFindAux none s

/-- `re.match(r'^\s*(SELECT|WITH|INSERT|UPDATE|DELETE)\b', line_stripped, re.IGNORECASE)`:
the line is already stripped, so `^\s*` consumes nothing. -/
def lineStartsKw (st : List Char) : Bool := (kwLenAt none st).isSome

/-- The line-by-line fallback loop of `_clean_sql_query` (strategy 2):
start collecting at a line that opens with a statement keyword, append
non-empty stripped lines, stop after a line ending in `;`. -/
def lineLoop (inSql : Bool) : List (List Char) → List (List Char)
  | [] => []
  | l :: ls =>
    let st := pyStrip l
    let inSql2 := if lineStartsKw st then true else inSql
    let here := if inSql2 && !st.isEmpty then [st] else []
    if inSql2 && endsWithSemi st then here
    else here ++ lineLoop inSql2 ls

/-- Markdown language tag test: `sql.strip().lower().startswith(("sql\n", "sql "))`
(the `elif` on the uppercased text in the source is the same condition and
can never fire after the `if` failed). -/
def langTag (st : List Char) : Bool :=
  (st.take 4).map Char.toLower == ['s','q','l','\n'] ||
  (st.take 4).map Char.toLower == ['s','q','l',' ']

/-- The markdown-stripping phase of `_clean_sql_query`: if the text contains
a fence, keep the content of the first fenced block (`parts[1]`; splitting on
a contained separator always yields length ≥ 2, so the inner guard holds),
strip a leading language tag, and strip whitespace. -/
def markdownPhase (s : List Char) : List Char :=
  if containsL s fence then
    let sql := (splitFence s).getD 1 []
    let sql := if langTag (pyStrip sql) then (pyStrip sql).drop 3 else sql
    pyStrip sql
  else s

/-- Strategies 1–3 of `_clean_sql_query`: regex extraction, else line-by-line
extraction, else the stripped working text. -/
def extractPhase (s : List Char) : List Char :=
  match regexFind s with
  | some m => pyStrip m
  | none =>
    let ls := lineLoop false (splitNL s)
    if ls.isEmpty then pyStrip s else pyStrip (joinSpace ls)

/-- `if sql.endswith(";"): sql = sql[:-1].strip()`. -/
def semiPhase (t : List Char) : List Char :=
  if endsWithSemi t then pyStrip t.dropLast else t

/-- The cleaning pipeline before the final length check. -/
def cleanMid (input : List Char) : List Char :=
  semiPhase (extractPhase (markdownPhase input))

/-- `SQLAgent._clean_sql_query`: run the pipeline; if the result is empty or
shorter than 5 characters, return the stripped original input instead. -/
def cleanL (input : List Char) : List Char :=
  let sql := cleanMid input
  if sql.length < 5 then pyStrip input else sql

/-- `_clean_sql_query` on `String`. -/
def cleanStr (s : String) : String := String.mk (cleanL s.data)

/-! ## String-level wrappers used by the validator and the nodes -/

/-- Python `str.strip()`. -/
def stripStr (s : String) : String := String.mk (pyStrip s.data)

/-- Python `str.upper()` (ASCII). -/
def upperStr (s : String) : String := String.mk (s.data.map Char.toUpper)

/-- Python `str.lower()` (ASCII). -/
def lowerStr (s : String) : String := String.mk (s.data.map Char.toLower)

/-- Python `h.startswith(p)`. -/
def startsWithStr (h p : String) : Bool := p.data.isPrefixOf h.data

/-- Python `sub in h`. -/
def containsStr (h sub : String) : Bool := containsL h.data sub.data

/-! ## `_validate_sql` -/

/-- `ValidationResult` pydantic model. -/
structure ValidationResult where
  is_valid : Bool
  error : Option String := none
  deriving DecidableEq, Repr

/-- The `dangerous_keywords` denylist, in source order. -/
def dangerousKeywords : List String :=
  ["DROP", "DELETE", "INSERT", "UPDATE", "ALTER", "CREATE", "TRUNCATE"]

/-- The `valid_tables` whitelist. -/
def validTables : List String :=
  ["querycraft_customer", "querycraft_product", "querycraft_order"]

/-- The `for keyword in dangerous_keywords` loop: first contained keyword wins. -/
def firstDangerous (sqlUpper : String) : Option String :=
  dangerousKeywords.find? (fun kw => containsStr sqlUpper kw)

/-- `SQLAgent._validate_sql`. The `EXPLAIN` probe (a cursor round-trip whose
outcome depends on the database vendor and state) is the oracle `explain`:
`none` models a probe that raises nothing (including the non-PostgreSQL,
non-SQLite vendors where the probe is skipped), `some e` a raised exception
rendered as `str(e)`. -/
def validateSql (explain : String → Option String) (sql : String) : ValidationResult :=
  let sqlUpper := upperStr (stripStr sql)
  -- `if not sql or not sql.strip()`
  if stripStr sql = "" then { is_valid := false, error := some "Empty SQL query" }
  else if !(startsWithStr sqlUpper "SELECT") then
    { is_valid := false, error := some "Only SELECT queries are allowed" }
  else
    match firstDangerous sqlUpper with
    | some kw =>
      { is_valid := false
        error := some ("Dangerous operation detected: " ++ kw ++ " queries are not allowed") }
    | none =>
      if !(validTables.any (fun t => containsStr (lowerStr sql) t)) then
        { is_valid := false
          error := some "Query must reference at least one valid table (querycraft_customer, querycraft_product, querycraft_order)" }
      else
        match explain sql with
        | some e => { is_valid := false, error := some ("SQL syntax error: " ++ e) }
        | none => { is_valid := true, error := none }

/-! ## The LangGraph workflow -/

/-- `GraphState` TypedDict. Result rows are the dictionaries built by
`dict(zip(columns, row))`, modelled as association lists; scalar cell
values are opaque strings. All keys are always present (the initial state
sets each of them), so Python's `state.get(k, default)` on these states is
simply the stored value, `None` included. -/
structure GState where
  question : String
  sql_query : Option String
  is_valid : Option Bool
  error : Option String
  results : Option (List (List (String × String)))
  columns : Option (List String)
  row_count : Option Int
  method : Option String
  deriving DecidableEq, Repr

/-- Raw outcome of `cursor.execute` when no exception is raised:
the result descriptor's column names, the fetched raw rows, and
`cursor.rowcount`. -/
structure ExecResult where
  columns : List String
  rows : List (List String)
  rowcount : Int
  deriving DecidableEq, Repr

/-- The external effects of one pipeline run: the Ollama chain invocation
(`.error e` = an exception rendered as `str(e)`, `.ok text` = the model's
raw text), the `EXPLAIN` validation probe, and cursor execution. -/
structure Params where
  llm : Except String String
  explain : String → Option String
  exec : String → Except String ExecResult

/-- Python truthiness of an optional string (`None` and `""` are falsy). -/
def strTruthy : Option String → Bool
  | none => false
  | some s => !(s == "")

/-- `SQLAgent._node_sql_generator`. -/
def genNode (P : Params) (s : GState) : GState :=
  match P.llm with
  | .error e =>
    { s with sql_query := none, error := some ("SQL generation error: " ++ e)
             method := some "ollama", is_valid := some false }
  | .ok resp =>
    let raw := stripStr resp
    if raw = "" then
      { s with sql_query := none
               error := some "Ollama returned empty response. Please check if the model is loaded and responding."
               method := some "ollama", is_valid := some false }
    else
      { s with sql_query := some (cleanStr raw), method := some "ollama" }

/-- `SQLAgent._node_sql_validator`. The early return's
`state.get("error", "No SQL query generated")` reads the always-present
`error` key, so it is the stored value. -/
def valNode (P : Params) (s : GState) : GState :=
  match s.sql_query with
  | none => { s with is_valid := some false, error := s.error }
  | some q =>
    if q = "" then { s with is_valid := some false, error := s.error }
    else
      let v := validateSql P.explain q
      { s with is_valid := some v.is_valid, error := v.error }

/-- `SQLAgent._node_execute_sql`. -/
def execNode (P : Params) (s : GState) : GState :=
  match s.sql_query with
  | none => { s with error := some "No SQL query to execute" }
  | some q =>
    if q = "" then { s with error := some "No SQL query to execute" }
    else
      match P.exec q with
      | .error e => { s with error := some ("SQL execution error: " ++ e) }
      | .ok res =>
        if startsWithStr (upperStr (stripStr q)) "SELECT" then
          let results := res.rows.map (fun r => res.columns.zip r)
          { s with results := some results
                   row_count := some (Int.ofNat results.length)
                   columns := some res.columns }
        else
          { s with results := some [], row_count := some res.rowcount, columns := some [] }

/-- `SQLAgent._should_execute`: `state.get("is_valid")` is truthy
exactly when it is `True`. -/
def shouldExecute (s : GState) : Bool := s.is_valid == some true

/-- One invocation of the compiled graph: entry point `sql_generator`,
unconditional edge to `sql_validator`, conditional edge to `execute_sql`
or `END`. `trace` lists the nodes that were invoked, in order. -/
structure RunResult where
  s1 : GState
  s2 : GState
  executed : Bool
  final : GState
  trace : List String
  deriving Repr

/-- `self.graph.invoke(initial_state)` for the graph built by `_build_graph`. -/
def runGraph (P : Params) (s0 : GState) : RunResult :=
  let s1 := genNode P s0
  let s2 := valNode P s1
  if shouldExecute s2 then
    { s1 := s1, s2 := s2, executed := true, final := execNode P s2
      trace := ["sql_generator", "sql_validator", "execute_sql"] }
  else
    { s1 := s1, s2 := s2, executed := false, final := s2
      trace := ["sql_generator", "sql_validator"] }

/-- The initial `GraphState` of `process_question`. -/
def initState (question : String) : GState :=
  { question := question, sql_query := none, is_valid := none, error := none
    results := none, columns := none, row_count := none, method := none }

/-- The run of one question. -/
def runFor (P : Params) (question : String) : RunResult :=
  runGraph P (initState question)

/-- `QueryResult` pydantic model. -/
structure QueryResult where
  success : Bool
  question : String
  sql_query : Option String := none
  method : Option String := none
  results : List (List (String × String)) := []
  row_count : Int := 0
  columns : List String := []
  error : Option String := none
  deriving DecidableEq, Repr

/-- `SQLAgent.process_question`: run the graph and map the final state to a
`QueryResult`. The branch guards use Python truthiness; the `get(k, default)`
reads hit always-present keys, so the defaults surface only for `results` /
`row_count` / `columns` when those keys still hold `None` (never the case on
the reachable success path, as proved below). The outer `except` branch is
unreachable in the embedding because every node is total over the oracles. -/
def processQuestion (P : Params) (question : String) : QueryResult :=
  let fin := (runFor P question).final
  if strTruthy fin.error then
    { success := false, question := question, sql_query := fin.sql_query
      method := fin.method, error := fin.error, results := [], row_count := 0, columns := [] }
  else if strTruthy fin.sql_query && !(fin.is_valid == some true) then
    { success := false, question := question, sql_query := fin.sql_query
      method := fin.method, error := fin.error, results := [], row_count := 0, columns := [] }
  else
    { success := true, question := question, sql_query := fin.sql_query
      method := fin.method, results := fin.results.getD []
      row_count := fin.row_count.getD 0, columns := fin.columns.getD [], error := none }

/-! ## Basic lemmas about the string helpers -/

lemma containsL_iff {hay sub : List Char} : containsL hay sub = true ↔ sub <:+: hay := by
  induction hay with
  | nil =>
    simp only [containsL, List.isPrefixOf_iff_prefix]
    constructor
    · intro h
      split at h
      · exact (by assumption : sub <+: []).isInfix
      · exact absurd h (by simp)
    · intro h
      have : sub = [] := by simpa using h.length_le
      simp [this]
  | cons c t ih =>
    simp only [containsL, List.isPrefixOf_iff_prefix]
    split
    · simp only [true_iff]
      exact (by assumption : sub <+: c :: t).isInfix
    · rename_i hnp
      rw [ih, List.infix_cons_iff]
      tauto

lemma containsL_false_of_infix {x y sub : List Char} (hxy : x <:+: y)
    (h : containsL y sub = false) : containsL x sub = false := by
  by_contra hc
  have : containsL x sub = true := by simpa using hc
  have : sub <:+: y := (containsL_iff.mp this).trans hxy
  rw [← containsL_iff] at this
  simp [this] at h

lemma mem_of_containsL {x y : List Char} (hxy : x <:+: y) {c : Char}
    (hc : c ∈ x) : c ∈ y := hxy.subset hc

/-- A prefix is contained. -/
lemma containsL_of_isPrefixOf {hay sub : List Char} (h : sub.isPrefixOf hay = true) :
    containsL hay sub = true := by
  cases hay <;> simp [containsL, h]

lemma dropTrail_isPre (p : Char → Bool) (x : List Char) : dropTrail p x <+: x := by
  have h1 : x.reverse.dropWhile p <:+ x.reverse := List.dropWhile_suffix p
  have h2 : (x.reverse.dropWhile p).reverse <+: x.reverse.reverse := by
    rw [← List.reverse_prefix] at h1
    simpa using h1
  simpa [dropTrail] using h2

lemma pyStrip_isInf (s : List Char) : pyStrip s <:+: s :=
  (dropTrail_isPre isPySpace (s.dropWhile isPySpace)).isInfix.trans
    (List.dropWhile_suffix isPySpace).isInfix

lemma head?_dropWhile_not (p : Char → Bool) (s : List Char) {c : Char}
    (h : (s.dropWhile p).head? = some c) : p c = false := by
  induction s with
  | nil => simp at h
  | cons a t ih =>
    rw [List.dropWhile_cons] at h
    split at h
    · exact ih h
    · simp_all

lemma dropWhile_eq_self_of_head {p : Char → Bool} {s : List Char}
    (h : ∀ c, s.head? = some c → p c = false) : s.dropWhile p = s := by
  cases s with
  | nil => rfl
  | cons a t => rw [List.dropWhile_cons]; simp [h a rfl]

lemma dropTrail_eq_self_of_getLast {p : Char → Bool} {s : List Char}
    (h : ∀ c, s.getLast? = some c → p c = false) : dropTrail p s = s := by
  have hh : ∀ c, s.reverse.head? = some c → p c = false := by
    intro c hc
    exact h c (by simpa using hc)
  unfold dropTrail
  rw [dropWhile_eq_self_of_head hh, List.reverse_reverse]

lemma getLast?_dropTrail_not (p : Char → Bool) (s : List Char) {c : Char}
    (h : (dropTrail p s).getLast? = some c) : p c = false := by
  unfold dropTrail at h
  rw [List.getLast?_reverse] at h
  exact head?_dropWhile_not p s.reverse h

lemma head?_of_prefix {x y : List Char} (h : x <+: y) (hne : x ≠ []) :
    y.head? = x.head? := by
  obtain ⟨r, rfl⟩ := h
  cases x with
  | nil => exact absurd rfl hne
  | cons a t => rfl

lemma head?_pyStrip_not (s : List Char) {c : Char}
    (h : (pyStrip s).head? = some c) : isPySpace c = false := by
  unfold pyStrip at h
  have hpre := dropTrail_isPre isPySpace (s.dropWhile isPySpace)
  have hne : dropTrail isPySpace (s.dropWhile isPySpace) ≠ [] := by
    intro hnil; rw [hnil] at h; simp at h
  rw [← head?_of_prefix hpre hne] at h
  exact head?_dropWhile_not isPySpace s h

lemma getLast?_pyStrip_not (s : List Char) {c : Char}
    (h : (pyStrip s).getLast? = some c) : isPySpace c = false :=
  getLast?_dropTrail_not isPySpace _ h

lemma pyStrip_idem (s : List Char) : pyStrip (pyStrip s) = pyStrip s := by
  have h1 : (pyStrip s).dropWhile isPySpace = pyStrip s :=
    dropWhile_eq_self_of_head (fun c hc => head?_pyStrip_not s hc)
  show dropTrail isPySpace ((pyStrip s).dropWhile isPySpace) = pyStrip s
  rw [h1]
  exact dropTrail_eq_self_of_getLast (fun c hc => getLast?_pyStrip_not s hc)

lemma dropTrail_append (p : Char → Bool) (a b : List Char) :
    dropTrail p (a ++ b) =
      if dropTrail p b = [] then dropTrail p a else a ++ dropTrail p b := by
  unfold dropTrail
  rw [List.reverse_append, List.dropWhile_append]
  split
  · rename_i h
    have hb : b.reverse.dropWhile p = [] := by simpa [List.isEmpty_iff] using h
    simp [hb]
  · rename_i h
    have hb : b.reverse.dropWhile p ≠ [] := by simpa [List.isEmpty_iff] using h
    simp [List.reverse_append, hb, List.reverse_eq_nil_iff]

/-- Stripping a list whose head and last characters are kept intact
peels only the tail: `pyStrip (A ++ B) = A ++ dropTrail isPySpace B`
when `A` is nonempty and starts and ends with non-space characters. -/
lemma pyStrip_append_keep {A B : List Char} (hne : A ≠ [])
    (hhd : ∀ c, A.head? = some c → isPySpace c = false)
    (hlast : ∀ c, A.getLast? = some c → isPySpace c = false) :
    pyStrip (A ++ B) = A ++ dropTrail isPySpace B := by
  unfold pyStrip
  rw [List.dropWhile_append]
  have hA : A.dropWhile isPySpace = A := dropWhile_eq_self_of_head hhd
  rw [hA]
  have : A.isEmpty = false := by simpa [List.isEmpty_iff] using hne
  rw [if_neg (by simp [this])]
  rw [dropTrail_append]
  split
  · rename_i h
    rw [dropTrail_eq_self_of_getLast hlast, h, List.append_nil]
  · rfl

lemma mem_dropLast_or_getLast? {l : List Char} {c : Char} (h : c ∈ l) :
    c ∈ l.dropLast ∨ l.getLast? = some c := by
  have hne : l ≠ [] := by rintro rfl; simp at h
  have hsplit := List.dropLast_append_getLast hne
  rw [← hsplit] at h
  rcases List.mem_append.mp h with h1 | h1
  · exact Or.inl h1
  · right
    have : c = l.getLast hne := by simpa using h1
    rw [this]
    exact List.getLast?_eq_getLast l hne

/-! ## Lemmas about `lazyEnd` -/

lemma lazyEnd_prefix (r : List Char) : lazyEnd r <+: r := by
  induction r with
  | nil => simp [lazyEnd]
  | cons c t ih =>
    rw [lazyEnd]
    split
    · rename_i h; subst h; simp
    · split
      · exact List.nil_prefix
      · exact (List.prefix_cons_inj c).mpr ih

lemma lazyEnd_eq_self {r : List Char} (h1 : ';' ∉ r) (h2 : r.getLast? ≠ some '\n') :
    lazyEnd r = r := by
  induction r with
  | nil => rfl
  | cons c t ih =>
    rw [lazyEnd]
    have hc : c ≠ ';' := by intro hc; exact h1 (hc ▸ List.mem_cons_self c t)
    rw [if_neg hc]
    by_cases ht : t = []
    · subst ht
      have : c ≠ '\n' := by intro hc; rw [hc] at h2; simp at h2
      simp [this, lazyEnd]
    · have hT : (c = '\n' && t.isEmpty) = false := by
        simp [List.isEmpty_iff, ht]
      rw [hT, if_neg (by simp)]
      congr 1
      refine ih (fun hm => h1 (List.mem_cons_of_mem c hm)) ?_
      cases t with
      | nil => exact absurd rfl ht
      | cons x xs => rwa [List.getLast?_cons_cons] at h2

lemma semi_not_mem_dropLast_lazyEnd (r : List Char) : ';' ∉ (lazyEnd r).dropLast := by
  induction r with
  | nil => simp [lazyEnd]
  | cons c t ih =>
    rw [lazyEnd]
    split
    · simp
    · split
      · simp
      · rename_i hc _
        cases hle : lazyEnd t with
        | nil => simp [hle]
        | cons x xs =>
          rw [List.dropLast_cons_of_ne_nil (by simp [hle])]
          intro hmem
          rcases List.mem_cons.mp hmem with h | h
          · exact hc (h ▸ rfl)
          · rw [hle] at ih; exact ih h

lemma lazyEnd_semi_last {r : List Char} (h : ';' ∈ lazyEnd r) :
    (lazyEnd r).getLast? = some ';' := by
  rcases mem_dropLast_or_getLast? h with h1 | h1
  · exact absurd h1 (semi_not_mem_dropLast_lazyEnd r)
  · exact h1

/-! ## Lemmas about `splitFence`, `splitNL`, `joinSpace` -/

lemma containsL_cons_of {t sub : List Char} (c : Char) (h : containsL t sub = true) :
    containsL (c :: t) sub = true := by
  rw [containsL]
  split <;> simp [h]

lemma splitFence_cons (c : Char) (t : List Char) (h : fence.isPrefixOf (c :: t) = false) :
    splitFence (c :: t) = match splitFence t with | [] => [[c]] | p :: ps => (c :: p) :: ps := by
  rw [splitFence.eq_def]
  split
  · rename_i heq
    exact absurd heq (by simp)
  · rename_i t3 heq
    exfalso
    simp only [List.cons.injEq] at heq
    obtain ⟨rfl, rfl⟩ := heq
    simp [fence, List.isPrefixOf] at h
  · rename_i c2 t2 hno heq
    simp only [List.cons.injEq] at heq
    obtain ⟨rfl, rfl⟩ := heq
    rfl

lemma splitFence_ne_nil (s : List Char) : splitFence s ≠ [] := by
  rw [splitFence.eq_def]
  split
  · simp
  · simp
  · split <;> simp

lemma fence_prefix_shape {c : Char} {t : List Char}
    (hf : fence.isPrefixOf (c :: t) = true) :
    ∃ r, c :: t = '\x60' :: '\x60' :: '\x60' :: r := by
  rw [List.isPrefixOf_iff_prefix] at hf
  obtain ⟨r, hr⟩ := hf
  exact ⟨r, hr.symm⟩

lemma splitFence_fence (r : List Char) :
    splitFence ('\x60' :: '\x60' :: '\x60' :: r) = [] :: splitFence r := rfl

lemma splitFence_head_prefix (s : List Char) {p : List Char}
    (h : (splitFence s).head? = some p) : p <+: s := by
  suffices H : ∀ n (s : List Char) (p : List Char), s.length = n →
      (splitFence s).head? = some p → p <+: s from H s.length s p rfl h
  intro n
  induction n using Nat.strong_induction_on with
  | _ n ih =>
    intro s p hn h
    subst hn
    cases s with
    | nil =>
      simp only [splitFence, List.head?_cons, Option.some.injEq] at h
      simp [← h]
    | cons c t =>
      by_cases hf : fence.isPrefixOf (c :: t)
      · obtain ⟨r, hr⟩ := fence_prefix_shape hf
        rw [hr, splitFence_fence] at h
        simp only [List.head?_cons, Option.some.injEq] at h
        simp [← h]
      · rw [splitFence_cons c t (Bool.not_eq_true _ ▸ eq_false_of_ne_true hf)] at h
        cases hsp : splitFence t with
        | nil => exact absurd hsp (splitFence_ne_nil t)
        | cons p' ps =>
          rw [hsp] at h
          simp only [List.head?_cons, Option.some.injEq] at h
          subst h
          have hp' : p' <+: t :=
            ih t.length (by simp) t p' rfl (by rw [hsp]; rfl)
          exact (List.prefix_cons_inj c).mpr hp'

lemma splitFence_parts_noFence (s : List Char) :
    ∀ p ∈ splitFence s, containsL p fence = false := by
  suffices H : ∀ n (s : List Char), s.length = n →
      ∀ p ∈ splitFence s, containsL p fence = false from H s.length s rfl
  intro n
  induction n using Nat.strong_induction_on with
  | _ n ih =>
    intro s hn p hp
    subst hn
    cases s with
    | nil =>
      simp only [splitFence, List.mem_singleton] at hp
      simp [hp, containsL, fence, List.isPrefixOf]
    | cons c t =>
      by_cases hf : fence.isPrefixOf (c :: t) = true
      · obtain ⟨r, hr⟩ := fence_prefix_shape hf
        rw [hr, splitFence_fence] at hp
        rcases List.mem_cons.mp hp with h1 | h1
        · simp [h1, containsL, fence, List.isPrefixOf]
        · have hlen : r.length < (c :: t).length := by
            have : (c :: t).length = r.length + 3 := by rw [hr]; simp
            omega
          exact ih r.length hlen r rfl p h1
      · rw [splitFence_cons c t (eq_false_of_ne_true hf)] at hp
        cases hsp : splitFence t with
        | nil => exact absurd hsp (splitFence_ne_nil t)
        | cons p' ps =>
          rw [hsp] at hp
          have iht : ∀ q ∈ splitFence t, containsL q fence = false :=
            fun q hq => ih t.length (by simp) t rfl q hq
          rcases List.mem_cons.mp hp with h1 | h1
          · subst h1
            rw [containsL]
            split
            · rename_i hpre
              exfalso
              have hp't : p' <+: t :=
                splitFence_head_prefix t (by rw [hsp]; rfl)
              have : fence <+: c :: t :=
                (List.isPrefixOf_iff_prefix.mp hpre).trans
                  ((List.prefix_cons_inj c).mpr hp't)
              rw [← List.isPrefixOf_iff_prefix] at this
              exact hf this
            · exact iht p' (by rw [hsp]; exact List.mem_cons_self _ _)
          · exact iht p (by rw [hsp]; exact List.mem_cons_of_mem _ h1)

lemma splitFence_length_ge_two {s : List Char} (h : containsL s fence = true) :
    2 ≤ (splitFence s).length := by
  suffices H : ∀ n (s : List Char), s.length = n → containsL s fence = true →
      2 ≤ (splitFence s).length from H s.length s rfl h
  intro n
  induction n using Nat.strong_induction_on with
  | _ n ih =>
    intro s hn h
    subst hn
    cases s with
    | nil => simp [containsL, fence, List.isPrefixOf] at h
    | cons c t =>
      by_cases hf : fence.isPrefixOf (c :: t) = true
      · obtain ⟨r, hr⟩ := fence_prefix_shape hf
        rw [hr, splitFence_fence]
        have := splitFence_ne_nil r
        simp only [List.length_cons]
        cases hsp : splitFence r with
        | nil => exact absurd hsp this
        | cons a b => simp
      · rw [splitFence_cons c t (eq_false_of_ne_true hf)]
        have ht : containsL t fence = true := by
          rw [containsL, if_neg hf] at h
          exact h
        have h2 := ih t.length (by simp) t rfl ht
        cases hsp : splitFence t with
        | nil => exact absurd hsp (splitFence_ne_nil t)
        | cons p' ps =>
          rw [hsp] at h2
          simp only [List.length_cons] at h2 ⊢
          omega

lemma markdownPhase_noFence (s : List Char) :
    containsL (markdownPhase s) fence = false := by
  unfold markdownPhase
  split
  · rename_i h
    have h2 := splitFence_length_ge_two h
    have hlt : 1 < (splitFence s).length := by omega
    have hmem : (splitFence s).getD 1 [] ∈ splitFence s := by
      rw [List.getD_eq_getElem _ _ hlt]
      exact List.getElem_mem hlt
    have hno := splitFence_parts_noFence s _ hmem
    dsimp only
    split
    · refine containsL_false_of_infix ?_ hno
      calc pyStrip (((pyStrip ((splitFence s).getD 1 [])).drop 3))
          <:+: (pyStrip ((splitFence s).getD 1 [])).drop 3 := pyStrip_isInf _
        _ <:+: pyStrip ((splitFence s).getD 1 []) := (List.drop_suffix _ _).isInfix
        _ <:+: (splitFence s).getD 1 [] := pyStrip_isInf _
    · exact containsL_false_of_infix (pyStrip_isInf _) hno
  · rename_i h
    simpa using h

/-! ## Structure of `regexFindAux` matches -/

lemma regexFindAux_spec {m : List Char} :
    ∀ {prev s}, regexFindAux prev s = some m →
    ∃ s2 p2 n, s2 <:+ s ∧ kwLenAt p2 s2 = some n ∧
      m = s2.take n ++ lazyEnd (s2.drop n) := by
  intro prev s
  induction s generalizing prev with
  | nil =>
    intro h
    rw [regexFindAux] at h
    cases hk : kwLenAt prev [] with
    | some n =>
      rw [hk] at h
      exact ⟨[], prev, n, List.suffix_refl _, hk, by simpa using h.symm⟩
    | none => rw [hk] at h; simp at h
  | cons c t ih =>
    intro h
    rw [regexFindAux] at h
    cases hk : kwLenAt prev (c :: t) with
    | some n =>
      rw [hk] at h
      exact ⟨c :: t, prev, n, List.suffix_refl _, hk, by simpa using h.symm⟩
    | none =>
      rw [hk] at h
      obtain ⟨s2, p2, n, hsuf, hlen, hm⟩ := ih h
      exact ⟨s2, p2, n, hsuf.trans ⟨[c], rfl⟩, hlen, hm⟩

lemma regexFindAux_isInf {prev s m} (h : regexFindAux prev s = some m) :
    m <:+: s := by
  obtain ⟨s2, p2, n, hsuf, hlen, hm⟩ := regexFindAux_spec h
  have hpre : m <+: s2 := by
    rw [hm]
    obtain ⟨u, hu⟩ := lazyEnd_prefix (s2.drop n)
    refine ⟨u, ?_⟩
    rw [List.append_assoc, hu, List.take_append_drop]
  exact hpre.isInfix.trans hsuf.isInfix

lemma kwLenAtList_spec : ∀ {L : List (List Char)} {prev s n},
    kwLenAtList L prev s = some n →
    ∃ kw ∈ L, n = kw.length ∧ matchesCI kw s = true ∧
      boundaryAfter kw.length s = true := by
  intro L
  induction L with
  | nil => intro prev s n h; simp [kwLenAtList] at h
  | cons kw kws ih =>
    intro prev s n h
    rw [kwLenAtList] at h
    split at h
    · rename_i hcond
      simp only [Bool.and_eq_true] at hcond
      obtain ⟨⟨_, hci⟩, hba⟩ := hcond
      exact ⟨kw, List.mem_cons_self _ _, by simpa using h.symm, hci, hba⟩
    · obtain ⟨kw', hmem, hrest⟩ := ih h
      exact ⟨kw', List.mem_cons_of_mem _ hmem, hrest⟩

lemma kwLenAtList_isSome_of {L : List (List Char)} {prev s} {kw : List Char}
    (hmem : kw ∈ L) (hbb : boundaryBefore prev = true)
    (hci : matchesCI kw s = true) (hba : boundaryAfter kw.length s = true) :
    (kwLenAtList L prev s).isSome = true := by
  induction L with
  | nil => simp at hmem
  | cons kw' kws ih =>
    rw [kwLenAtList]
    split
    · simp
    · rename_i hcond
      rcases List.mem_cons.mp hmem with h1 | h1
      · subst h1
        exact absurd (by simp [hbb, hci, hba]) hcond
      · exact ih h1

/-! ## Character facts used for keyword segments -/

lemma toUpper_of_isPySpace {c : Char} (h : isPySpace c = true) : c.toUpper = c := by
  simp only [isPySpace, Bool.or_eq_true, decide_eq_true_eq] at h
  rcases h with ((((h | h) | h) | h) | h) | h <;> subst h <;> decide

lemma kwList_facts : ∀ kw ∈ kwList, kw ≠ [] ∧ ';' ∉ kw ∧
    (∀ c, kw.head? = some c → isPySpace c = false) ∧
    (∀ c, kw.getLast? = some c → isPySpace c = false) := by decide

/-! ## No fence survives the cleaning pipeline (before the length fallback) -/

lemma prefix_append_sep {sub u b : List Char} {sep : Char} (hsep : sep ∉ sub)
    (h : sub <+: u ++ sep :: b) : sub <+: u := by
  have htake := List.prefix_iff_eq_take.mp h
  rw [List.take_append_eq_append_take] at htake
  by_cases hlen : sub.length ≤ u.length
  · have h0 : sub.length - u.length = 0 := by omega
    rw [h0] at htake
    simp only [List.take_zero, List.append_nil] at htake
    rw [htake]
    exact List.take_prefix _ _
  · exfalso
    apply hsep
    rw [htake]
    refine List.mem_append.mpr (Or.inr ?_)
    cases hk : sub.length - u.length with
    | zero => omega
    | succ k => simp

lemma containsL_nil_of_ne {sub : List Char} (hne : sub ≠ []) :
    containsL [] sub = false := by
  rw [containsL]
  split
  · rename_i hpre
    rw [List.isPrefixOf_iff_prefix] at hpre
    have hlen : sub.length ≤ 0 := by simpa using hpre.length_le
    exact absurd (List.length_eq_zero.mp (Nat.le_zero.mp hlen)) hne
  · rfl

lemma containsL_append_sep {a b sub : List Char} {sep : Char} (hsep : sep ∉ sub)
    (h : containsL (a ++ sep :: b) sub = true) :
    containsL a sub = true ∨ containsL b sub = true := by
  induction a with
  | nil =>
    simp only [List.nil_append] at h
    rw [containsL] at h
    split at h
    · rename_i hpre
      rw [List.isPrefixOf_iff_prefix] at hpre
      cases sub with
      | nil => left; simp [containsL, List.isPrefixOf]
      | cons x xs =>
        exfalso
        obtain ⟨r, hr⟩ := hpre
        rw [List.cons_append, List.cons.injEq] at hr
        exact hsep (hr.1 ▸ List.mem_cons_self x xs)
    · exact Or.inr h
  | cons c a' ih =>
    rw [List.cons_append, containsL] at h
    split at h
    · rename_i hpre
      left
      have hp : sub <+: (c :: a') ++ sep :: b := by
        rw [← List.isPrefixOf_iff_prefix]
        simpa [List.cons_append] using hpre
      exact containsL_of_isPrefixOf (List.isPrefixOf_iff_prefix.mpr (prefix_append_sep hsep hp))
    · rcases ih h with h1 | h1
      · exact Or.inl (containsL_cons_of c h1)
      · exact Or.inr h1

lemma containsL_joinSpace_false {parts : List (List Char)} {sub : List Char}
    (hsep : ' ' ∉ sub) (hne : sub ≠ [])
    (h : ∀ p ∈ parts, containsL p sub = false) :
    containsL (joinSpace parts) sub = false := by
  induction parts with
  | nil => simpa [joinSpace] using containsL_nil_of_ne hne
  | cons l ls ih =>
    cases ls with
    | nil => simpa [joinSpace] using h l (List.mem_singleton_self l)
    | cons l2 ls2 =>
      have hjoin : joinSpace (l :: l2 :: ls2) = l ++ ' ' :: joinSpace (l2 :: ls2) := rfl
      rw [hjoin]
      by_contra hc
      have hc2 : containsL (l ++ ' ' :: joinSpace (l2 :: ls2)) sub = true := by
        simpa using hc
      rcases containsL_append_sep hsep hc2 with h1 | h1
      · rw [h l (List.mem_cons_self _ _)] at h1; exact absurd h1 (by simp)
      · have := ih (fun p hp => h p (List.mem_cons_of_mem _ hp))
        rw [this] at h1
        exact absurd h1 (by simp)

lemma splitNL_cons_ne (c : Char) (t : List Char) (h : c ≠ '\n') :
    splitNL (c :: t) = match splitNL t with | [] => [[c]] | p :: ps => (c :: p) :: ps := by
  rw [splitNL.eq_def]
  split
  · rename_i heq; exact absurd heq (by simp)
  · rename_i t3 heq
    exfalso
    simp only [List.cons.injEq] at heq
    exact h heq.1
  · rename_i c2 t2 hno heq
    simp only [List.cons.injEq] at heq
    obtain ⟨rfl, rfl⟩ := heq
    rfl

lemma splitNL_ne_nil (s : List Char) : splitNL s ≠ [] := by
  rw [splitNL.eq_def]
  split
  · simp
  · simp
  · split <;> simp

lemma splitNL_head_prefix (s : List Char) {p : List Char}
    (h : (splitNL s).head? = some p) : p <+: s := by
  induction s generalizing p with
  | nil =>
    simp only [splitNL, List.head?_cons, Option.some.injEq] at h
    simp [← h]
  | cons c t ih =>
    by_cases hc : c = '\n'
    · subst hc
      have : splitNL ('\n' :: t) = [] :: splitNL t := rfl
      rw [this] at h
      simp only [List.head?_cons, Option.some.injEq] at h
      simp [← h]
    · rw [splitNL_cons_ne c t hc] at h
      cases hsp : splitNL t with
      | nil => exact absurd hsp (splitNL_ne_nil t)
      | cons p' ps =>
        rw [hsp] at h
        simp only [List.head?_cons, Option.some.injEq] at h
        subst h
        exact (List.prefix_cons_inj c).mpr (ih (by rw [hsp]; rfl))

lemma splitNL_mem_isInf (s : List Char) : ∀ l ∈ splitNL s, l <:+: s := by
  induction s with
  | nil =>
    intro l hl
    simp only [splitNL, List.mem_singleton] at hl
    simp [hl]
  | cons c t ih =>
    intro l hl
    by_cases hc : c = '\n'
    · subst hc
      have : splitNL ('\n' :: t) = [] :: splitNL t := rfl
      rw [this] at hl
      rcases List.mem_cons.mp hl with h1 | h1
      · simp [h1]
      · exact List.infix_cons (ih l h1)
    · rw [splitNL_cons_ne c t hc] at hl
      cases hsp : splitNL t with
      | nil => exact absurd hsp (splitNL_ne_nil t)
      | cons p' ps =>
        rw [hsp] at hl
        rcases List.mem_cons.mp hl with h1 | h1
        · subst h1
          have hp : p' <+: t := splitNL_head_prefix t (by rw [hsp]; rfl)
          exact ((List.prefix_cons_inj c).mpr hp).isInfix
        · exact List.infix_cons (ih l (by rw [hsp]; exact List.mem_cons_of_mem _ h1))

lemma mem_lineLoop : ∀ {b : Bool} {ls : List (List Char)} {p : List Char},
    p ∈ lineLoop b ls → ∃ l ∈ ls, p = pyStrip l := by
  intro b ls
  induction ls generalizing b with
  | nil => intro p hp; simp [lineLoop] at hp
  | cons l ls2 ih =>
    intro p hp
    rw [lineLoop] at hp
    set A := if lineStartsKw (pyStrip l) then true else b with hA
    by_cases h1 : (A && endsWithSemi (pyStrip l)) = true
    · rw [if_pos h1] at hp
      by_cases h2 : (A && !(pyStrip l).isEmpty) = true
      · rw [if_pos h2] at hp
        exact ⟨l, List.mem_cons_self _ _, by simpa using hp⟩
      · rw [if_neg h2] at hp; simp at hp
    · rw [if_neg h1] at hp
      rcases List.mem_append.mp hp with hm | hm
      · by_cases h2 : (A && !(pyStrip l).isEmpty) = true
        · rw [if_pos h2] at hm
          exact ⟨l, List.mem_cons_self _ _, by simpa using hm⟩
        · rw [if_neg h2] at hm; simp at hm
      · obtain ⟨l2, hl2, hpl⟩ := ih hm
        exact ⟨l2, List.mem_cons_of_mem _ hl2, hpl⟩

lemma extractPhase_noFence {s : List Char} (hs : containsL s fence = false) :
    containsL (extractPhase s) fence = false := by
  rw [extractPhase]
  split
  · rename_i m hr
    exact containsL_false_of_infix
      ((pyStrip_isInf m).trans (regexFindAux_isInf hr)) hs
  · rename_i hr
    show containsL (if (lineLoop false (splitNL s)).isEmpty then pyStrip s
      else pyStrip (joinSpace (lineLoop false (splitNL s)))) fence = false
    split
    · exact containsL_false_of_infix (pyStrip_isInf s) hs
    · refine containsL_false_of_infix (pyStrip_isInf _) ?_
      refine containsL_joinSpace_false (by decide) (by decide) ?_
      intro p hp
      obtain ⟨l, hl, rfl⟩ := mem_lineLoop hp
      exact containsL_false_of_infix
        ((pyStrip_isInf l).trans (splitNL_mem_isInf s l hl)) hs

lemma cleanMid_noFence (input : List Char) :
    containsL (cleanMid input) fence = false := by
  unfold cleanMid semiPhase
  have h2 := extractPhase_noFence (markdownPhase_noFence input)
  split
  · exact containsL_false_of_infix
      ((pyStrip_isInf _).trans (List.dropLast_prefix _).isInfix) h2
  · exact h2

/-! ## The regex-extracted candidate re-extracts to itself -/

lemma matchesCI_eq {kw s : List Char} (h : matchesCI kw s = true) :
    (s.take kw.length).map Char.toUpper = kw := beq_iff_eq.mp h

lemma mem_of_getLast?_my {l : List Char} {c : Char} (h : l.getLast? = some c) : c ∈ l := by
  have := List.dropLast_append_getLast? c h
  rw [← this]
  exact List.mem_append.mpr (Or.inr (List.mem_singleton_self c))

lemma lazyEnd_head {r : List Char} (h : lazyEnd r ≠ []) :
    (lazyEnd r).head? = r.head? := by
  cases r with
  | nil => exact absurd rfl h
  | cons c t =>
    rw [lazyEnd]
    by_cases hc : c = ';'
    · rw [if_pos hc]; subst hc; rfl
    · rw [if_neg hc]
      by_cases hn : (c = '\n' && t.isEmpty) = true
      · exfalso; apply h; rw [lazyEnd, if_neg hc, if_pos hn]
      · rw [if_neg hn]; rfl

lemma prefix_dropLast_mono {x y : List Char} (h : x <+: y) :
    x.dropLast <+: y.dropLast := by
  obtain ⟨r, rfl⟩ := h
  rw [List.dropLast_append]
  split
  · exact List.prefix_refl _
  · exact (List.dropLast_prefix x).trans (List.prefix_append x r.dropLast)

lemma dropTrail_idem (p : Char → Bool) (s : List Char) :
    dropTrail p (dropTrail p s) = dropTrail p s :=
  dropTrail_eq_self_of_getLast (fun _ hc => getLast?_dropTrail_not p s hc)

lemma getLast?_drop_of_ne_nil {y : List Char} {n : Nat} (h : y.drop n ≠ []) :
    (y.drop n).getLast? = y.getLast? := by
  conv_rhs => rw [← List.take_append_drop n y]
  rw [List.getLast?_append_of_ne_nil _ h]

/-- Facts about the keyword segment `s.take kw.length` of a case-insensitive
keyword match: nonempty, framed by non-whitespace characters, no semicolon. -/
lemma kw_segment_facts {kw s : List Char} (hkw : kw ∈ kwList) (hci : matchesCI kw s = true) :
    s.take kw.length ≠ [] ∧
    (∀ c, (s.take kw.length).head? = some c → isPySpace c = false) ∧
    (∀ c, (s.take kw.length).getLast? = some c → isPySpace c = false) ∧
    ';' ∉ s.take kw.length ∧ (s.take kw.length).length = kw.length := by
  have hmap := matchesCI_eq hci
  obtain ⟨hne, hsemi, hhead, hlast⟩ := kwList_facts kw hkw
  have hlenA : (s.take kw.length).length = kw.length := by
    have := congrArg List.length hmap
    simpa using this
  refine ⟨?_, ?_, ?_, ?_, hlenA⟩
  · intro h0
    rw [h0] at hmap
    exact hne (by simpa using hmap.symm)
  · intro c hc
    by_contra hsp
    have hsp' : isPySpace c = true := by simpa using hsp
    have hk : kw.head? = some c := by
      rw [← hmap, List.head?_map, hc]
      simp [toUpper_of_isPySpace hsp']
    rw [hhead c hk] at hsp'
    exact absurd hsp' (by simp)
  · intro c hc
    by_contra hsp
    have hsp' : isPySpace c = true := by simpa using hsp
    have hk : kw.getLast? = some c := by
      rw [← hmap, List.getLast?_map, hc]
      simp [toUpper_of_isPySpace hsp']
    rw [hlast c hk] at hsp'
    exact absurd hsp' (by simp)
  · intro hmem
    exact hsemi (hmap ▸ List.mem_map.mpr ⟨';', hmem, by decide⟩)

/-- Core shape of `semiPhase (pyStrip (A ++ B))` for a keyword segment `A`
followed by a lazy-match tail `B`: the result is `A ++ C` for a prefix `C`
of `B`, contains no semicolon, and is strip-fixed. -/
lemma semiPhase_pyStrip_shape {A B : List Char}
    (hAne : A ≠ [])
    (hAhead : ∀ c, A.head? = some c → isPySpace c = false)
    (hAlast : ∀ c, A.getLast? = some c → isPySpace c = false)
    (hAsemi : ';' ∉ A)
    (hBd : ';' ∉ B.dropLast)
    (hBlast : ';' ∈ B → B.getLast? = some ';') :
    ∃ C, C <+: B ∧ semiPhase (pyStrip (A ++ B)) = A ++ C ∧ ';' ∉ (A ++ C) ∧
      pyStrip (A ++ C) = A ++ C := by
  have ht : pyStrip (A ++ B) = A ++ dropTrail isPySpace B :=
    pyStrip_append_keep hAne hAhead hAlast
  have hB1B : dropTrail isPySpace B <+: B := dropTrail_isPre _ _
  unfold semiPhase
  rw [ht]
  by_cases hsemi : endsWithSemi (A ++ dropTrail isPySpace B) = true
  · rw [if_pos hsemi]
    have hB1ne : dropTrail isPySpace B ≠ [] := by
      intro h0
      rw [h0, List.append_nil] at hsemi
      unfold endsWithSemi at hsemi
      exact hAsemi (mem_of_getLast?_my (by simpa using hsemi))
    rw [List.dropLast_append, if_neg (by simpa [List.isEmpty_iff] using hB1ne)]
    rw [pyStrip_append_keep hAne hAhead hAlast]
    refine ⟨dropTrail isPySpace (dropTrail isPySpace B).dropLast, ?_, rfl, ?_, ?_⟩
    · exact (dropTrail_isPre _ _).trans
        ((prefix_dropLast_mono hB1B).trans (List.dropLast_prefix B))
    · intro hmem
      rcases List.mem_append.mp hmem with h | h
      · exact hAsemi h
      · exact hBd (((dropTrail_isPre _ _).trans (prefix_dropLast_mono hB1B)).subset h)
    · rw [pyStrip_append_keep hAne hAhead hAlast, dropTrail_idem]
  · rw [if_neg hsemi]
    refine ⟨dropTrail isPySpace B, hB1B, rfl, ?_, ?_⟩
    · intro hmem
      rcases List.mem_append.mp hmem with h | h
      · exact hAsemi h
      · have hmemB : ';' ∈ B := hB1B.subset h
        have hlastB := hBlast hmemB
        have hB1ne : dropTrail isPySpace B ≠ [] := by
          intro h0; rw [h0] at h; simp at h
        have hB1full : dropTrail isPySpace B = B := by
          by_contra hne2
          have hlt : (dropTrail isPySpace B).length < B.length := by
            rcases Nat.lt_or_ge (dropTrail isPySpace B).length B.length with h1 | h1
            · exact h1
            · exact absurd (hB1B.eq_of_length (Nat.le_antisymm hB1B.length_le h1)) hne2
          have hpre' : dropTrail isPySpace B <+: B.dropLast := by
            rw [List.dropLast_eq_take, List.prefix_iff_eq_take]
            have h2 := List.prefix_iff_eq_take.mp hB1B
            rw [List.take_take]
            rw [Nat.min_eq_left (by omega)]
            exact h2
          exact hBd (hpre'.subset h)
        apply absurd _ hsemi
        unfold endsWithSemi
        rw [List.getLast?_append_of_ne_nil _ hB1ne, hB1full]
        simp [hlastB]
    · rw [pyStrip_append_keep hAne hAhead hAlast, dropTrail_idem]

lemma regexFindAux_of_kwLenAt {prev : Option Char} {s : List Char} {n : Nat}
    (h : kwLenAt prev s = some n) :
    regexFindAux prev s = some (s.take n ++ lazyEnd (s.drop n)) := by
  cases s with
  | nil => rw [regexFindAux, h]
  | cons c t => rw [regexFindAux, h]

/-- Master lemma: when the regex strategy extracts `m` from the fence-stripped
text, the mid-pipeline result `cleanMid input = semiPhase (pyStrip m)` is
semicolon-free and running the whole mid pipeline on it again returns it
unchanged. -/
lemma cleanMid_regex_fixed {input m : List Char}
    (hr : regexFind (markdownPhase input) = some m) :
    ';' ∉ cleanMid input ∧ cleanMid (cleanMid input) = cleanMid input := by
  have hmid : cleanMid input = semiPhase (pyStrip m) := by
    unfold cleanMid extractPhase
    rw [hr]
  obtain ⟨s2, p2, n, hsuf, hlen, hm⟩ := regexFindAux_spec hr
  obtain ⟨kw, hkwmem, hneq, hci, hba⟩ := kwLenAtList_spec hlen
  subst hneq
  obtain ⟨hAne, hAhead, hAlast, hAsemi, hAlen⟩ := kw_segment_facts hkwmem hci
  obtain ⟨C, hCB, hy, hysemi, hyfix⟩ :=
    semiPhase_pyStrip_shape (A := s2.take kw.length) (B := lazyEnd (s2.drop kw.length))
      hAne hAhead hAlast hAsemi
      (semi_not_mem_dropLast_lazyEnd _) (fun h => lazyEnd_semi_last h)
  rw [hm] at hmid
  have hmid2 : cleanMid input = s2.take kw.length ++ C := by rw [hmid, hy]
  have hnf : containsL (s2.take kw.length ++ C) fence = false := by
    rw [← hmid2]; exact cleanMid_noFence input
  refine ⟨hmid2 ▸ hysemi, ?_⟩
  rw [hmid2]
  -- the candidate `y`
  have hyne : s2.take kw.length ++ C ≠ [] := by
    intro h0
    exact hAne (List.append_eq_nil.mp h0).1
  -- the candidate's last character is not whitespace (it is strip-fixed)
  have hylast : ∀ c, (s2.take kw.length ++ C).getLast? = some c → isPySpace c = false := by
    intro c hc
    rw [← hyfix] at hc
    exact getLast?_pyStrip_not _ hc
  -- the keyword still matches at position 0
  have hciY : matchesCI kw (s2.take kw.length ++ C) = true := by
    unfold matchesCI
    rw [List.take_left' hAlen]
    exact beq_iff_eq.mpr (matchesCI_eq hci)
  have hbaY : boundaryAfter kw.length (s2.take kw.length ++ C) = true := by
    unfold boundaryAfter
    rw [List.drop_left' hAlen]
    cases hC : C with
    | nil => rfl
    | cons c cs =>
      have hCne : C ≠ [] := by rw [hC]; simp
      have hBne : lazyEnd (s2.drop kw.length) ≠ [] := by
        intro h0
        rw [h0] at hCB
        rw [List.prefix_nil] at hCB
        exact hCne hCB
      have hheads : (lazyEnd (s2.drop kw.length)).head? = C.head? :=
        head?_of_prefix hCB hCne
      rw [lazyEnd_head hBne] at hheads
      unfold boundaryAfter at hba
      cases hrr : s2.drop kw.length with
      | nil => rw [hrr] at hBne; exact absurd rfl hBne
      | cons c0 t0 =>
        rw [hrr] at hba hheads
        simp only [List.head?_cons, hC] at hheads
        have : c0 = c := by simpa using hheads
        subst this
        exact hba
  have hsome : (kwLenAt none (s2.take kw.length ++ C)).isSome :=
    kwLenAtList_isSome_of hkwmem rfl hciY hbaY
  obtain ⟨n', hn'⟩ := Option.isSome_iff_exists.mp hsome
  -- the regex re-match returns the whole candidate
  have hfind : regexFind (s2.take kw.length ++ C) = some (s2.take kw.length ++ C) := by
    unfold regexFind
    rw [regexFindAux_of_kwLenAt hn']
    congr 1
    cases hdd : (s2.take kw.length ++ C).drop n' with
    | nil =>
      have hle : (s2.take kw.length ++ C).length ≤ n' :=
        List.drop_eq_nil_iff.mp hdd
      simp [lazyEnd, List.take_of_length_le hle]
    | cons d ds =>
      have hne2 : (s2.take kw.length ++ C).drop n' ≠ [] := by rw [hdd]; simp
      rw [lazyEnd_eq_self ?_ ?_, ← hdd, List.take_append_drop]
      · intro hmem
        rw [← hdd] at hmem
        exact hysemi (List.drop_subset _ _ hmem)
      · rw [← hdd, getLast?_drop_of_ne_nil hne2]
        intro hcon
        have := hylast '\n' hcon
        simp [isPySpace] at this
  -- the whole mid pipeline fixes the candidate
  unfold cleanMid
  have hmk : markdownPhase (s2.take kw.length ++ C) = s2.take kw.length ++ C := by
    unfold markdownPhase
    rw [if_neg (by simp [hnf])]
  rw [hmk]
  have hex : extractPhase (s2.take kw.length ++ C) = s2.take kw.length ++ C := by
    unfold extractPhase
    rw [hfind]
    exact hyfix
  rw [hex]
  unfold semiPhase
  rw [if_neg ?_]
  intro hcon
  unfold endsWithSemi at hcon
  exact hysemi (mem_of_getLast?_my (by simpa using hcon))

/-! ## Validator and node-level lemmas -/

lemma str_append_ne_empty {a : String} (b : String) (h : a ≠ "") : a ++ b ≠ "" := by
  intro hc
  apply h
  have h2 := congrArg String.data hc
  rw [String.data_append] at h2
  have h3 : a.data = [] := by
    have := congrArg List.length h2
    simp only [List.length_append, List.length_nil] at this
    exact List.length_eq_zero.mp (by omega)
  exact String.ext h3

lemma validateSql_eq (ex : String → Option String) (q : String) :
    validateSql ex q =
      if stripStr q = "" then ⟨false, some "Empty SQL query"⟩
      else if !(startsWithStr (upperStr (stripStr q)) "SELECT") then
        ⟨false, some "Only SELECT queries are allowed"⟩
      else
        match firstDangerous (upperStr (stripStr q)) with
        | some kw => ⟨false, some ("Dangerous operation detected: " ++ kw ++ " queries are not allowed")⟩
        | none =>
          if !(validTables.any fun t => containsStr (lowerStr q) t) then
            ⟨false, some "Query must reference at least one valid table (querycraft_customer, querycraft_product, querycraft_order)"⟩
          else
            match ex q with
            | some e => ⟨false, some ("SQL syntax error: " ++ e)⟩
            | none => ⟨true, none⟩ := rfl

lemma validateSql_valid {ex : String → Option String} {q : String}
    (h : (validateSql ex q).is_valid = true) :
    (validateSql ex q).error = none ∧
    startsWithStr (upperStr (stripStr q)) "SELECT" = true := by
  by_cases h1 : stripStr q = ""
  · exfalso; rw [validateSql_eq, if_pos h1] at h; simp at h
  · by_cases h2 : startsWithStr (upperStr (stripStr q)) "SELECT" = true
    · cases h3 : firstDangerous (upperStr (stripStr q)) with
      | some kw =>
        exfalso
        rw [validateSql_eq, if_neg h1, if_neg (by simp [h2]), h3] at h
        simp at h
      | none =>
        by_cases h4 : (validTables.any fun t => containsStr (lowerStr q) t) = true
        · cases h5 : ex q with
          | some e =>
            exfalso
            rw [validateSql_eq, if_neg h1, if_neg (by simp [h2]), h3] at h
            dsimp only at h
            rw [if_neg (by simp [h4]), h5] at h
            simp at h
          | none =>
            refine ⟨?_, h2⟩
            rw [validateSql_eq, if_neg h1, if_neg (by simp [h2]), h3]
            dsimp only
            rw [if_neg (by simp [h4]), h5]
        · exfalso
          rw [validateSql_eq, if_neg h1, if_neg (by simp [h2]), h3] at h
          dsimp only at h
          rw [if_pos (by simp [h4])] at h
          simp at h
    · exfalso
      rw [validateSql_eq, if_neg h1, if_pos (by simp [h2])] at h
      simp at h

lemma validateSql_invalid {ex : String → Option String} {q : String}
    (h : (validateSql ex q).is_valid = false) :
    ∃ m, (validateSql ex q).error = some m ∧ m ≠ "" := by
  by_cases h1 : stripStr q = ""
  · rw [validateSql_eq, if_pos h1]
    exact ⟨_, rfl, by decide⟩
  · by_cases h2 : startsWithStr (upperStr (stripStr q)) "SELECT" = true
    · cases h3 : firstDangerous (upperStr (stripStr q)) with
      | some kw =>
        rw [validateSql_eq, if_neg h1, if_neg (by simp [h2]), h3]
        exact ⟨_, rfl, str_append_ne_empty _ (str_append_ne_empty _ (by decide))⟩
      | none =>
        by_cases h4 : (validTables.any fun t => containsStr (lowerStr q) t) = true
        · cases h5 : ex q with
          | some e =>
            rw [validateSql_eq, if_neg h1, if_neg (by simp [h2]), h3]
            dsimp only
            rw [if_neg (by simp [h4]), h5]
            exact ⟨_, rfl, str_append_ne_empty _ (by decide)⟩
          | none =>
            exfalso
            rw [validateSql_eq, if_neg h1, if_neg (by simp [h2]), h3] at h
            dsimp only at h
            rw [if_neg (by simp [h4]), h5] at h
            simp at h
        · rw [validateSql_eq, if_neg h1, if_neg (by simp [h2]), h3]
          dsimp only
          rw [if_pos (by simp [h4])]
          exact ⟨_, rfl, by decide⟩
    · rw [validateSql_eq, if_neg h1, if_pos (by simp [h2])]
      exact ⟨_, rfl, by decide⟩

lemma cleanL_eq (input : List Char) :
    cleanL input =
      if (cleanMid input).length < 5 then pyStrip input else cleanMid input := rfl

/-- The cleaned candidate of a non-empty stripped response is non-empty. -/
lemma cleanStr_strip_ne_empty {resp : String} (h : stripStr resp ≠ "") :
    cleanStr (stripStr resp) ≠ "" := by
  intro hc
  apply h
  have hdata : cleanL (pyStrip resp.data) = [] := by
    have := congrArg String.data hc
    simpa [cleanStr, stripStr] using this
  rw [cleanL_eq] at hdata
  split at hdata
  · rw [pyStrip_idem] at hdata
    exact String.ext (by simpa [stripStr] using hdata)
  · rename_i hlen
    rw [hdata] at hlen
    simp at hlen

/-! ## Node unfolding lemmas -/

lemma genNode_error {P : Params} {s : GState} {e : String} (h : P.llm = .error e) :
    genNode P s = { s with sql_query := none
                           error := some ("SQL generation error: " ++ e)
                           method := some "ollama", is_valid := some false } := by
  unfold genNode
  rw [h]

lemma genNode_empty {P : Params} {s : GState} {resp : String}
    (h : P.llm = .ok resp) (h2 : stripStr resp = "") :
    genNode P s = { s with sql_query := none
                           error := some "Ollama returned empty response. Please check if the model is loaded and responding."
                           method := some "ollama", is_valid := some false } := by
  unfold genNode
  rw [h]
  dsimp only
  rw [if_pos h2]

lemma genNode_ok {P : Params} {s : GState} {resp : String}
    (h : P.llm = .ok resp) (h2 : stripStr resp ≠ "") :
    genNode P s = { s with sql_query := some (cleanStr (stripStr resp))
                           method := some "ollama" } := by
  unfold genNode
  rw [h]
  dsimp only
  rw [if_neg h2]

lemma valNode_none {P : Params} {s : GState} (h : s.sql_query = none) :
    valNode P s = { s with is_valid := some false, error := s.error } := by
  unfold valNode
  rw [h]

lemma valNode_some {P : Params} {s : GState} {q : String}
    (h : s.sql_query = some q) (h2 : q ≠ "") :
    valNode P s = { s with is_valid := some (validateSql P.explain q).is_valid
                           error := (validateSql P.explain q).error } := by
  unfold valNode
  rw [h]
  dsimp only
  rw [if_neg h2]

lemma runGraph_eq (P : Params) (s0 : GState) :
    runGraph P s0 =
      if shouldExecute (valNode P (genNode P s0)) then
        { s1 := genNode P s0, s2 := valNode P (genNode P s0), executed := true
          final := execNode P (valNode P (genNode P s0))
          trace := ["sql_generator", "sql_validator", "execute_sql"] }
      else
        { s1 := genNode P s0, s2 := valNode P (genNode P s0), executed := false
          final := valNode P (genNode P s0)
          trace := ["sql_generator", "sql_validator"] } := rfl

lemma runGraph_s1 (P : Params) (s0 : GState) :
    (runGraph P s0).s1 = genNode P s0 := by
  rw [runGraph_eq]
  split <;> rfl

lemma runGraph_s2 (P : Params) (s0 : GState) :
    (runGraph P s0).s2 = valNode P (genNode P s0) := by
  rw [runGraph_eq]
  split <;> rfl

lemma runGraph_executed (P : Params) (s0 : GState) :
    (runGraph P s0).executed = shouldExecute (valNode P (genNode P s0)) := by
  rw [runGraph_eq]
  split <;> simp_all

lemma runGraph_trace (P : Params) (s0 : GState) :
    (runGraph P s0).trace =
      if shouldExecute (valNode P (genNode P s0)) then
        ["sql_generator", "sql_validator", "execute_sql"]
      else ["sql_generator", "sql_validator"] := by
  rw [runGraph_eq]
  split <;> simp_all

lemma runGraph_final (P : Params) (s0 : GState) :
    (runGraph P s0).final =
      if shouldExecute (valNode P (genNode P s0)) then
        execNode P (valNode P (genNode P s0))
      else valNode P (genNode P s0) := by
  rw [runGraph_eq]
  split <;> simp_all

/-! ## Process-level lemmas and shared concrete runs -/

/-- Python truthiness of the `error` field as a proposition. -/
def errTruthy (o : Option String) : Prop := ∃ m, o = some m ∧ m ≠ ""

lemma strTruthy_iff {o : Option String} : strTruthy o = true ↔ errTruthy o := by
  cases o with
  | none => simp [strTruthy, errTruthy]
  | some s =>
    simp only [strTruthy, errTruthy, Bool.not_eq_true', beq_eq_false_iff_ne, ne_eq,
      Option.some.injEq]
    constructor
    · intro h; exact ⟨s, rfl, h⟩
    · rintro ⟨m, rfl, hm⟩; exact hm

lemma processQuestion_eq (P : Params) (q : String) :
    processQuestion P q =
      if strTruthy (runFor P q).final.error then
        { success := false, question := q, sql_query := (runFor P q).final.sql_query
          method := (runFor P q).final.method, error := (runFor P q).final.error
          results := [], row_count := 0, columns := [] }
      else if strTruthy (runFor P q).final.sql_query &&
          !((runFor P q).final.is_valid == some true) then
        { success := false, question := q, sql_query := (runFor P q).final.sql_query
          method := (runFor P q).final.method, error := (runFor P q).final.error
          results := [], row_count := 0, columns := [] }
      else
        { success := true, question := q, sql_query := (runFor P q).final.sql_query
          method := (runFor P q).final.method
          results := (runFor P q).final.results.getD []
          row_count := (runFor P q).final.row_count.getD 0
          columns := (runFor P q).final.columns.getD [], error := none } := rfl

lemma execNode_sql_query (P : Params) (s : GState) :
    (execNode P s).sql_query = s.sql_query := by
  unfold execNode
  split
  · rfl
  · split
    · rfl
    · split
      · rfl
      · split <;> rfl

lemma execNode_is_valid (P : Params) (s : GState) :
    (execNode P s).is_valid = s.is_valid := by
  unfold execNode
  split
  · rfl
  · split
    · rfl
    · split
      · rfl
      · split <;> rfl

lemma execNode_method (P : Params) (s : GState) :
    (execNode P s).method = s.method := by
  unfold execNode
  split
  · rfl
  · split
    · rfl
    · split
      · rfl
      · split <;> rfl

lemma execNode_ok_select {P : Params} {s : GState} {q : String} {res : ExecResult}
    (h : s.sql_query = some q) (h2 : ¬ q = "") (h3 : P.exec q = .ok res)
    (h4 : startsWithStr (upperStr (stripStr q)) "SELECT" = true) :
    execNode P s = { s with results := some (res.rows.map fun r => res.columns.zip r)
                            row_count := some (Int.ofNat ((res.rows.map
                              fun r => res.columns.zip r).length))
                            columns := some res.columns } := by
  unfold execNode
  rw [h]
  dsimp only
  rw [if_neg h2, h3]
  dsimp only
  rw [if_pos h4]

lemma execNode_error_case {P : Params} {s : GState} {q : String} {e : String}
    (h : s.sql_query = some q) (h2 : ¬ q = "") (h3 : P.exec q = .error e) :
    execNode P s = { s with error := some ("SQL execution error: " ++ e) } := by
  unfold execNode
  rw [h]
  dsimp only
  rw [if_neg h2, h3]

lemma genNode_results (P : Params) (s : GState) : (genNode P s).results = s.results := by
  unfold genNode
  split
  · rfl
  · dsimp only
    split <;> rfl

lemma genNode_row_count (P : Params) (s : GState) :
    (genNode P s).row_count = s.row_count := by
  unfold genNode
  split
  · rfl
  · dsimp only
    split <;> rfl

lemma valNode_results (P : Params) (s : GState) : (valNode P s).results = s.results := by
  unfold valNode
  split
  · rfl
  · dsimp only
    split <;> rfl

lemma valNode_row_count (P : Params) (s : GState) :
    (valNode P s).row_count = s.row_count := by
  unfold valNode
  split
  · rfl
  · dsimp only
    split <;> rfl

/-- A run whose candidate SQL references no whitelisted table: the validator
rejects, the executor must not run. -/
def pNoTable : Params :=
  { llm := .ok "SELECT 1", explain := fun _ => none
    exec := fun _ => .ok { columns := [], rows := [], rowcount := 0 } }

/-- A run whose completion call raises a transport error. -/
def pGenError : Params :=
  { llm := .error "connection refused", explain := fun _ => none
    exec := fun _ => .ok { columns := [], rows := [], rowcount := 0 } }

/-- A successful run: a whitelisted SELECT whose execution returns two rows. -/
def pSuccess : Params :=
  { llm := .ok "SELECT * FROM querycraft_customer", explain := fun _ => none
    exec := fun _ => .ok { columns := ["id", "name"]
                           rows := [["1", "alice"], ["2", "bob"]], rowcount := -1 } }

/-! ## Claims -/

/-- C1: the Query Executor node runs only when the validator verdict is
`is_valid = True`; whenever the verdict is `False` or unset, `execute_sql`
is never invoked, so no SQL statement is ever executed without first
passing validation. -/
theorem C1_executor_runs_only_on_valid_verdict (P : Params) (q : String)
    (h : (runFor P q).s2.is_valid ≠ some true) :
    "execute_sql" ∉ (runFor P q).trace := by
  have e2 : (runFor P q).s2 = valNode P (genNode P (initState q)) :=
    runGraph_s2 P (initState q)
  have hse : shouldExecute (valNode P (genNode P (initState q))) = false := by
    unfold shouldExecute
    rw [← e2]
    simpa using h
  have e5 : (runFor P q).trace =
      if shouldExecute (valNode P (genNode P (initState q))) then
        ["sql_generator", "sql_validator", "execute_sql"]
      else ["sql_generator", "sql_validator"] := runGraph_trace P (initState q)
  rw [e5, hse]
  decide

/-- Witness for C1 at a concrete run whose candidate references no valid table. -/
theorem C1_executor_runs_only_on_valid_verdict_witness :
    (runFor pNoTable "q").s2.is_valid ≠ some true ∧
    "execute_sql" ∉ (runFor pNoTable "q").trace :=
  ⟨by decide, C1_executor_runs_only_on_valid_verdict pNoTable "q" (by decide)⟩

/-- Whether the generation stage failed: the completion call raised, or the
stripped response text is empty. -/
def genFailed (P : Params) : Prop :=
  match P.llm with
  | .error _ => True
  | .ok resp => stripStr resp = ""

/-- C4 as stated: after a generation failure the run reaches the terminal
state with the error set and `is_valid=false`, and neither the validating
node nor the executing node ever runs. -/
def claimC4 : Prop :=
  ∀ (P : Params) (q : String), genFailed P →
    (runFor P q).final.error ≠ none ∧ (runFor P q).final.is_valid = some false ∧
    "sql_validator" ∉ (runFor P q).trace ∧ "execute_sql" ∉ (runFor P q).trace

/-- C4 is false on the code: the graph has an unconditional edge
`sql_generator → sql_validator`, so the validator node still runs after a
generation failure (it merely passes the failure through). -/
theorem C4_counterexample : ¬ claimC4 := by
  intro h
  have h2 := (h pGenError "q" trivial).2.2.1
  exact h2 (by decide)

/-- C4 amended: after a generation failure the run terminates with the
error set and `is_valid=false`, the executing node never runs, and the
validating node does run but passes the generation error through unchanged. -/
theorem C4_generation_failure_terminal (P : Params) (q : String) (hgf : genFailed P) :
    (runFor P q).final.error ≠ none ∧ (runFor P q).final.is_valid = some false ∧
    "execute_sql" ∉ (runFor P q).trace ∧ "sql_validator" ∈ (runFor P q).trace ∧
    (runFor P q).final.error = (runFor P q).s1.error := by
  have hs1cases : ∃ msg, genNode P (initState q) =
      { initState q with sql_query := none, error := some msg
                         method := some "ollama", is_valid := some false } := by
    unfold genFailed at hgf
    cases hP : P.llm with
    | error e => exact ⟨_, genNode_error hP⟩
    | ok resp =>
      rw [hP] at hgf
      exact ⟨_, genNode_empty hP hgf⟩
  obtain ⟨msg, hs1⟩ := hs1cases
  have hs2 : valNode P (genNode P (initState q)) =
      { initState q with sql_query := none, error := some msg
                         method := some "ollama", is_valid := some false } := by
    rw [hs1, valNode_none rfl]
  have hse : shouldExecute (valNode P (genNode P (initState q))) = false := by
    rw [hs2]; rfl
  have e1 : (runFor P q).s1 = genNode P (initState q) := runGraph_s1 P (initState q)
  have e4 : (runFor P q).final = valNode P (genNode P (initState q)) := by
    rw [show (runFor P q).final = _ from runGraph_final P (initState q), hse]
    simp
  have e5 : (runFor P q).trace = ["sql_generator", "sql_validator"] := by
    rw [show (runFor P q).trace = _ from runGraph_trace P (initState q), hse]
    simp
  refine ⟨?_, ?_, ?_, ?_, ?_⟩
  · rw [e4, hs2]; simp
  · rw [e4, hs2]
  · rw [e5]; decide
  · rw [e5]; decide
  · rw [e4, hs2, e1, hs1]

/-- Witness for the amended C4 at a concrete transport failure. -/
theorem C4_generation_failure_terminal_witness :
    genFailed pGenError ∧
    ((runFor pGenError "q").final.error ≠ none ∧
     (runFor pGenError "q").final.is_valid = some false ∧
     "execute_sql" ∉ (runFor pGenError "q").trace ∧
     "sql_validator" ∈ (runFor pGenError "q").trace ∧
     (runFor pGenError "q").final.error = (runFor pGenError "q").s1.error) :=
  ⟨trivial, C4_generation_failure_terminal pGenError "q" trivial⟩

/-- C5: once a stage has set the error field to a non-empty value, no later
stage clears it or proceeds to execute SQL: an error set by the generator is
passed through the validator unchanged and blocks execution, and an error
present after validation blocks execution. -/
theorem C5_error_is_sticky (P : Params) (q : String) :
    (errTruthy (runFor P q).s1.error →
      (runFor P q).s2.error = (runFor P q).s1.error ∧ (runFor P q).executed = false) ∧
    (errTruthy (runFor P q).s2.error → (runFor P q).executed = false) := by
  have e1 : (runFor P q).s1 = genNode P (initState q) := runGraph_s1 P (initState q)
  have e2 : (runFor P q).s2 = valNode P (genNode P (initState q)) :=
    runGraph_s2 P (initState q)
  have e3 : (runFor P q).executed = shouldExecute (valNode P (genNode P (initState q))) :=
    runGraph_executed P (initState q)
  rw [e1, e2, e3]
  cases hP : P.llm with
  | error e =>
    rw [genNode_error hP, valNode_none rfl]
    exact ⟨fun _ => ⟨rfl, rfl⟩, fun _ => rfl⟩
  | ok resp =>
    by_cases hresp : stripStr resp = ""
    · rw [genNode_empty hP hresp, valNode_none rfl]
      exact ⟨fun _ => ⟨rfl, rfl⟩, fun _ => rfl⟩
    · have hcne := cleanStr_strip_ne_empty hresp
      rw [genNode_ok hP hresp, valNode_some rfl hcne]
      constructor
      · rintro ⟨m, hm, -⟩
        exact absurd hm (by simp [initState])
      · rintro ⟨m, hm, hmne⟩
        have hv : (validateSql P.explain (cleanStr (stripStr resp))).error = some m := by
          simpa using hm
        have hiv : (validateSql P.explain (cleanStr (stripStr resp))).is_valid = false := by
          cases hb : (validateSql P.explain (cleanStr (stripStr resp))).is_valid
          · rfl
          · exact absurd ((validateSql_valid hb).1.symm.trans hv) (by simp)
        unfold shouldExecute
        simp [hiv]

/-- Witness for C5 at a concrete transport failure. -/
theorem C5_error_is_sticky_witness :
    errTruthy (runFor pGenError "q").s1.error ∧
    ((runFor pGenError "q").s2.error = (runFor pGenError "q").s1.error ∧
     (runFor pGenError "q").executed = false) :=
  ⟨⟨"SQL generation error: connection refused", by decide, by decide⟩,
   (C5_error_is_sticky pGenError "q").1
     ⟨"SQL generation error: connection refused", by decide, by decide⟩⟩

lemma str_ne_empty_data {a : String} (h : a ≠ "") : a.data ≠ [] := by
  intro hc
  exact h (String.ext (by simpa using hc))

/-- C2 as stated: any candidate containing a denylist keyword (as a substring
of its uppercased text) is rejected, and the rejection reason names the
offending keyword. -/
def claimC2 : Prop :=
  ∀ (ex : String → Option String) (sql : String),
    (dangerousKeywords.any fun kw => containsStr (upperStr (stripStr sql)) kw) = true →
    (validateSql ex sql).is_valid = false ∧
    ∃ kw ∈ dangerousKeywords, containsStr (upperStr (stripStr sql)) kw = true ∧
      containsStr ((validateSql ex sql).error.getD "") kw = true

/-- C2 is false on the code: `DELETE FROM querycraft_order` contains the
denylist keyword `DELETE` but is rejected by the earlier SELECT-prefix rule,
whose reason `Only SELECT queries are allowed` names no denylist keyword. -/
theorem C2_counterexample : ¬ claimC2 := by
  intro h
  exact absurd (h (fun _ => none) "DELETE FROM querycraft_order" (by decide)).2 (by decide)

/-- C2 amended: any candidate containing a denylist keyword is rejected, and
when the candidate additionally starts with `SELECT` (so the denylist check
is the one that fires), the rejection reason names the offending keyword. -/
theorem C2_denylist_rejection (ex : String → Option String) (sql : String)
    (hany : (dangerousKeywords.any fun kw =>
      containsStr (upperStr (stripStr sql)) kw) = true) :
    (validateSql ex sql).is_valid = false ∧
    (startsWithStr (upperStr (stripStr sql)) "SELECT" = true →
      ∃ kw ∈ dangerousKeywords, containsStr (upperStr (stripStr sql)) kw = true ∧
        containsStr ((validateSql ex sql).error.getD "") kw = true) := by
  have hne : stripStr sql ≠ "" := by
    intro h0
    rw [List.any_eq_true] at hany
    obtain ⟨kw, hkwmem, hkw⟩ := hany
    have hkwne : kw.data ≠ [] := by
      have hkw7 : kw ≠ "" := by
        simp only [dangerousKeywords, List.mem_cons, List.mem_singleton] at hkwmem
        rcases hkwmem with rfl | rfl | rfl | rfl | rfl | rfl | rfl | h7
        any_goals decide
        simp at h7
      exact str_ne_empty_data hkw7
    rw [h0] at hkw
    have hfalse : containsStr (upperStr "") kw = false := containsL_nil_of_ne hkwne
    rw [hfalse] at hkw
    exact absurd hkw (by simp)
  by_cases hsel : startsWithStr (upperStr (stripStr sql)) "SELECT" = true
  · have hfd : ∃ kw0, firstDangerous (upperStr (stripStr sql)) = some kw0 := by
      cases hf : firstDangerous (upperStr (stripStr sql)) with
      | some kw0 => exact ⟨kw0, rfl⟩
      | none =>
        exfalso
        unfold firstDangerous at hf
        rw [List.find?_eq_none] at hf
        rw [List.any_eq_true] at hany
        obtain ⟨kw, hkwmem, hkw⟩ := hany
        exact absurd hkw (by simpa using hf kw hkwmem)
    obtain ⟨kw0, hf⟩ := hfd
    have hkw0mem : kw0 ∈ dangerousKeywords := List.mem_of_find?_eq_some hf
    have hkw0in : containsStr (upperStr (stripStr sql)) kw0 = true := by
      have := List.find?_some hf
      simpa using this
    have hval : validateSql ex sql =
        ⟨false, some ("Dangerous operation detected: " ++ kw0 ++ " queries are not allowed")⟩ := by
      rw [validateSql_eq, if_neg hne, if_neg (by simp [hsel]), hf]
    rw [hval]
    refine ⟨rfl, fun _ => ⟨kw0, hkw0mem, hkw0in, ?_⟩⟩
    show containsL _ _ = true
    rw [containsL_iff]
    have hdata : ("Dangerous operation detected: " ++ kw0 ++ " queries are not allowed").data
        = "Dangerous operation detected: ".data ++ kw0.data ++ " queries are not allowed".data := by
      rw [String.data_append, String.data_append]
    refine ⟨"Dangerous operation detected: ".data, " queries are not allowed".data, ?_⟩
    exact hdata.symm
  · have hval : validateSql ex sql = ⟨false, some "Only SELECT queries are allowed"⟩ := by
      rw [validateSql_eq, if_neg hne, if_pos (by simp [hsel])]
    rw [hval]
    exact ⟨rfl, fun hcon => absurd hcon hsel⟩

/-- Witness for the amended C2 at a smuggled multi-statement candidate. -/
theorem C2_denylist_rejection_witness :
    ((dangerousKeywords.any fun kw => containsStr (upperStr (stripStr
        "SELECT 1; DROP TABLE querycraft_customer")) kw) = true) ∧
    (validateSql (fun _ => none) "SELECT 1; DROP TABLE querycraft_customer").is_valid = false ∧
    (startsWithStr (upperStr (stripStr "SELECT 1; DROP TABLE querycraft_customer")) "SELECT" = true →
      ∃ kw ∈ dangerousKeywords,
        containsStr (upperStr (stripStr "SELECT 1; DROP TABLE querycraft_customer")) kw = true ∧
        containsStr ((validateSql (fun _ => none)
          "SELECT 1; DROP TABLE querycraft_customer").error.getD "") kw = true) :=
  ⟨by decide, C2_denylist_rejection (fun _ => none)
    "SELECT 1; DROP TABLE querycraft_customer" (by decide)⟩

/-- Modelled from the spec: the "normalized (trimmed, case-folded) leading
token" of a candidate — the maximal whitespace-free prefix of the stripped
text, uppercased. Used only to state C3 as written, for comparison with the
prefix test the code performs. -/
def specLeadingToken (sql : String) : String :=
  String.mk (((pyStrip sql.data).takeWhile (fun c => !(isPySpace c))).map Char.toUpper)

/-- C3 as stated: every non-empty candidate whose normalized leading token is
not `SELECT` is rejected with the read-only-policy reason. -/
def claimC3 : Prop :=
  ∀ (ex : String → Option String) (sql : String), stripStr sql ≠ "" →
    specLeadingToken sql ≠ "SELECT" →
    (validateSql ex sql).is_valid = false ∧
    (validateSql ex sql).error = some "Only SELECT queries are allowed"

/-- C3 is false on the code: the code tests `startswith("SELECT")`, not the
leading token, so `SELECTALL id FROM querycraft_order` (leading token
`SELECTALL`) passes validation. -/
theorem C3_counterexample : ¬ claimC3 := by
  intro h
  exact absurd (h (fun _ => none) "SELECTALL id FROM querycraft_order"
    (by decide) (by decide)).1 (by decide)

/-- C3 amended: every non-empty candidate whose trimmed uppercased text does
not start with the prefix `SELECT` is rejected with the read-only-policy
reason; the check runs after the empty check and before the denylist check
(the reason is the read-only one even when denylist keywords are present). -/
theorem C3_non_select_prefix_rejected (ex : String → Option String) (sql : String)
    (h1 : stripStr sql ≠ "")
    (h2 : startsWithStr (upperStr (stripStr sql)) "SELECT" = false) :
    validateSql ex sql = ⟨false, some "Only SELECT queries are allowed"⟩ := by
  rw [validateSql_eq, if_neg h1, if_pos (by simp [h2])]

/-- Witness for the amended C3 at a lowercase DDL statement that also
contains a denylist keyword: the read-only reason wins. -/
theorem C3_non_select_prefix_rejected_witness :
    stripStr "drop table querycraft_customer" ≠ "" ∧
    startsWithStr (upperStr (stripStr "drop table querycraft_customer")) "SELECT" = false ∧
    validateSql (fun _ => none) "drop table querycraft_customer" =
      ⟨false, some "Only SELECT queries are allowed"⟩ :=
  ⟨by decide, by decide,
   C3_non_select_prefix_rejected (fun _ => none) "drop table querycraft_customer"
     (by decide) (by decide)⟩

set_option maxRecDepth 40000

/-- The multiline SELECT from the repository's own test
`test_multiline_query` in `querycraft/services/tests/test_services.py`. -/
def multilineTestInput : String :=
  "SELECT\n            c.name,\n            COUNT(o.id) as order_count\n        FROM querycraft_customer c\n        LEFT JOIN querycraft_order o ON c.id = o.customer_id\n        GROUP BY c.name"

/-- The single-line output that the repository's test asserts for that input. -/
def multilineTestExpected : String :=
  "SELECT c.name, COUNT(o.id) as order_count FROM querycraft_customer c LEFT JOIN querycraft_order o ON c.id = o.customer_id GROUP BY c.name"

/-- C7 (code bug): on the repository's own `test_multiline_query` input the
extractor returns the text verbatim — the regex strategy fires first with
`re.DOTALL` and preserves every newline — instead of the single-space-joined
form the test (and the claim) demand, and the line-joining strategy never
runs. A trailing semicolon also survives on short inputs such as `"x;"`. -/
theorem C7_multiline_not_collapsed :
    cleanStr multilineTestInput = multilineTestInput ∧
    '\n' ∈ (cleanStr multilineTestInput).data ∧
    cleanStr multilineTestInput ≠ multilineTestExpected ∧
    cleanStr "x;" = "x;" := by decide

/-- C8 as stated: the extractor's output never contains a markdown fence
delimiter nor any raw backtick character. -/
def claimC8 : Prop :=
  ∀ s : String, containsL (cleanStr s).data fence = false ∧
    ∀ c ∈ (cleanStr s).data, c ≠ '\x60'

/-- C8 is false on the code: an input with single backticks and no statement
keyword is returned unchanged by the fallback strategy, backticks included. -/
theorem C8_counterexample : ¬ claimC8 := by
  intro h
  have h2 := (h "hello \x60world\x60 ok").2 '\x60' (by decide)
  exact h2 rfl

/-- C8 amended: whenever the cleaned statement reaches the 5-character
threshold (so the original-text fallback is not used), the output contains
no markdown fence delimiter; single backticks may survive, and the
short-result fallback may return the original text, fences included. -/
theorem C8_no_fence_above_threshold (s : String)
    (hlen : 5 ≤ (cleanMid s.data).length) :
    (cleanStr s).data = cleanMid s.data ∧
    containsL (cleanStr s).data fence = false := by
  have hc : cleanL s.data = cleanMid s.data := by
    rw [cleanL_eq, if_neg (by omega)]
  constructor
  · show (String.mk (cleanL s.data)).data = cleanMid s.data
    rw [hc]
  · show containsL (String.mk (cleanL s.data)).data fence = false
    show containsL (cleanL s.data) fence = false
    rw [hc]
    exact cleanMid_noFence s.data

/-- Witness for the amended C8 at an input with inline backticks. -/
theorem C8_no_fence_above_threshold_witness :
    5 ≤ (cleanMid ("SELECT * FROM \x60querycraft_customer\x60").data).length ∧
    ((cleanStr "SELECT * FROM \x60querycraft_customer\x60").data =
      cleanMid ("SELECT * FROM \x60querycraft_customer\x60").data ∧
     containsL (cleanStr "SELECT * FROM \x60querycraft_customer\x60").data fence = false) :=
  ⟨by decide, C8_no_fence_above_threshold "SELECT * FROM \x60querycraft_customer\x60" (by decide)⟩

/-- C9 as stated: the extractor is idempotent. -/
def claimC9 : Prop := ∀ s : String, cleanStr (cleanStr s) = cleanStr s

/-- C9 is false on the code: `"abcde;;"` cleans to `"abcde;"` (strategy 3
strips one trailing semicolon), and a second application strips the second
semicolon, giving `"abcde"`. -/
theorem C9_counterexample : ¬ claimC9 := by
  intro h
  exact absurd (h "abcde;;") (by decide)

/-- C9 amended: the extractor is idempotent on every input on which the
primary regex strategy extracts the statement and the cleaned result
reaches the 5-character threshold; in general a second application can
strip one further trailing semicolon. -/
theorem C9_idempotent_on_regex_path (s : String) (m : List Char)
    (hr : regexFind (markdownPhase s.data) = some m)
    (hlen : 5 ≤ (cleanMid s.data).length) :
    cleanStr (cleanStr s) = cleanStr s := by
  obtain ⟨hsemi, hfix⟩ := cleanMid_regex_fixed hr
  have hge : ¬ (cleanMid s.data).length < 5 := by omega
  have hc : cleanL s.data = cleanMid s.data := by
    rw [cleanL_eq, if_neg hge]
  have hdata : ∀ t : String, (cleanStr t).data = cleanL t.data := fun _ => rfl
  apply String.ext
  rw [hdata, hdata, hc, cleanL_eq, hfix, if_neg hge]

/-- Witness for the amended C9 at a SELECT with trailing prose. -/
theorem C9_idempotent_on_regex_path_witness :
    regexFind (markdownPhase ("SELECT id FROM querycraft_order; thanks!").data) =
      some ("SELECT id FROM querycraft_order;").data ∧
    5 ≤ (cleanMid ("SELECT id FROM querycraft_order; thanks!").data).length ∧
    cleanStr (cleanStr "SELECT id FROM querycraft_order; thanks!") =
      cleanStr "SELECT id FROM querycraft_order; thanks!" :=
  ⟨by decide, by decide,
   C9_idempotent_on_regex_path "SELECT id FROM querycraft_order; thanks!"
     ("SELECT id FROM querycraft_order;").data (by decide) (by decide)⟩

/-- When the conditional edge selects `execute_sql`, the validated candidate
exists, is non-empty, passed validation (so it starts with `SELECT` after
trimming and uppercasing), and the validator cleared the error field. -/
lemma executed_facts (P : Params) (q : String)
    (hx : shouldExecute (valNode P (genNode P (initState q))) = true) :
    ∃ c, ¬ c = "" ∧
      (valNode P (genNode P (initState q))).sql_query = some c ∧
      (valNode P (genNode P (initState q))).error = none ∧
      (valNode P (genNode P (initState q))).is_valid = some true ∧
      startsWithStr (upperStr (stripStr c)) "SELECT" = true := by
  have hvalid : (valNode P (genNode P (initState q))).is_valid = some true := by
    unfold shouldExecute at hx
    simpa using hx
  cases hP : P.llm with
  | error e =>
    rw [genNode_error hP, valNode_none rfl] at hvalid
    simp at hvalid
  | ok resp =>
    by_cases hresp : stripStr resp = ""
    · rw [genNode_empty hP hresp, valNode_none rfl] at hvalid
      simp at hvalid
    · have hcne := cleanStr_strip_ne_empty hresp
      have hv : (validateSql P.explain (cleanStr (stripStr resp))).is_valid = true := by
        rw [genNode_ok hP hresp, valNode_some rfl hcne] at hvalid
        simpa using hvalid
      obtain ⟨herr, hsel⟩ := validateSql_valid hv
      refine ⟨cleanStr (stripStr resp), hcne, ?_, ?_, ?_, hsel⟩
      · rw [genNode_ok hP hresp, valNode_some rfl hcne]
      · rw [genNode_ok hP hresp, valNode_some rfl hcne]
        simpa using herr
      · rw [genNode_ok hP hresp, valNode_some rfl hcne]
        simp [hv]

/-- C10: in every `QueryResult` returned by `process_question`, `row_count`
equals the number of entries in `results`; moreover, whenever the executor
runs, the executed statement starts with `SELECT` (after trimming and
uppercasing), so the executor's non-SELECT branch — which would report an
affected-row count with empty results — is unreachable. -/
theorem C10_row_count_equals_results_length (P : Params) (q : String) :
    (processQuestion P q).row_count = ((processQuestion P q).results.length : Int) ∧
    ((runFor P q).executed = true →
      ∃ c, (runFor P q).s2.sql_query = some c ∧
        startsWithStr (upperStr (stripStr c)) "SELECT" = true) := by
  have e2 : (runFor P q).s2 = valNode P (genNode P (initState q)) :=
    runGraph_s2 P (initState q)
  have e3 : (runFor P q).executed = shouldExecute (valNode P (genNode P (initState q))) :=
    runGraph_executed P (initState q)
  have e4 : (runFor P q).final =
      if shouldExecute (valNode P (genNode P (initState q))) then
        execNode P (valNode P (genNode P (initState q)))
      else valNode P (genNode P (initState q)) := runGraph_final P (initState q)
  have hconj2 : (runFor P q).executed = true →
      ∃ c, (runFor P q).s2.sql_query = some c ∧
        startsWithStr (upperStr (stripStr c)) "SELECT" = true := by
    intro hx
    rw [e3] at hx
    obtain ⟨c, hcne, hsq, herr, hiv, hsel⟩ := executed_facts P q hx
    exact ⟨c, by rw [e2]; exact hsq, hsel⟩
  refine ⟨?_, hconj2⟩
  by_cases hx : shouldExecute (valNode P (genNode P (initState q))) = true
  · obtain ⟨c, hcne, hsq, herr, hiv, hsel⟩ := executed_facts P q hx
    have hfin : (runFor P q).final = execNode P (valNode P (genNode P (initState q))) := by
      rw [e4, if_pos hx]
    cases hE : P.exec c with
    | error e =>
      have hfin2 : (runFor P q).final =
          { valNode P (genNode P (initState q)) with
            error := some ("SQL execution error: " ++ e) } := by
        rw [hfin, execNode_error_case hsq hcne hE]
      rw [processQuestion_eq, if_pos ?_]
      · rfl
      · rw [hfin2]
        exact strTruthy_iff.mpr ⟨_, rfl, str_append_ne_empty _ (by decide)⟩
    | ok res =>
      have hfin2 : (runFor P q).final =
          { valNode P (genNode P (initState q)) with
            results := some (res.rows.map fun r => res.columns.zip r)
            row_count := some (Int.ofNat ((res.rows.map
              fun r => res.columns.zip r).length))
            columns := some res.columns } := by
        rw [hfin, execNode_ok_select hsq hcne hE hsel]
      rw [processQuestion_eq, if_neg ?_, if_neg ?_]
      · rw [hfin2]
        simp
      · rw [hfin2]
        simp only [Bool.and_eq_true, Bool.not_eq_true']
        intro hcon
        have : (valNode P (genNode P (initState q))).is_valid = some true := hiv
        simp [this] at hcon
      · rw [hfin2]
        intro hcon
        have h2 := strTruthy_iff.mp hcon
        obtain ⟨mm, hmm, -⟩ := h2
        rw [show ({ valNode P (genNode P (initState q)) with
          results := some (res.rows.map fun r => res.columns.zip r)
          row_count := some (Int.ofNat ((res.rows.map
            fun r => res.columns.zip r).length))
          columns := some res.columns } : GState).error =
            (valNode P (genNode P (initState q))).error from rfl, herr] at hmm
        exact Option.noConfusion hmm
  · have hxf : shouldExecute (valNode P (genNode P (initState q))) = false := by
      revert hx
      cases shouldExecute (valNode P (genNode P (initState q))) <;> simp
    have hfin : (runFor P q).final = valNode P (genNode P (initState q)) := by
      rw [e4, hxf]
      simp
    have hres : (valNode P (genNode P (initState q))).results = none := by
      rw [valNode_results, genNode_results]
      rfl
    have hrc : (valNode P (genNode P (initState q))).row_count = none := by
      rw [valNode_row_count, genNode_row_count]
      rfl
    rw [processQuestion_eq]
    split
    · rfl
    · split
      · rfl
      · rw [hfin, hres, hrc]
        simp

/-- Witness for C10 at a successful two-row SELECT run. -/
theorem C10_row_count_equals_results_length_witness :
    (runFor pSuccess "q").executed = true ∧
    ∃ c, (runFor pSuccess "q").s2.sql_query = some c ∧
      startsWithStr (upperStr (stripStr c)) "SELECT" = true :=
  ⟨by decide, (C10_row_count_equals_results_length pSuccess "q").2 (by decide)⟩

/-- C6: `process_question` always returns a structured `QueryResult` for the
asked question; every failure carries a non-empty error message (each failure
class is recovered within its stage), and a validation rejection is reported
with the rejected SQL text in `sql_query` together with the rejection
reason. -/
theorem C6_structured_result_and_rejection_reporting (P : Params) (q : String) :
    (processQuestion P q).question = q ∧
    ((processQuestion P q).success = false → errTruthy (processQuestion P q).error) ∧
    (∀ c, (runFor P q).s1.sql_query = some c → (runFor P q).s2.is_valid = some false →
      (processQuestion P q).success = false ∧
      (processQuestion P q).sql_query = some c ∧
      (processQuestion P q).error = (runFor P q).s2.error ∧
      errTruthy (runFor P q).s2.error) := by
  have e1 : (runFor P q).s1 = genNode P (initState q) := runGraph_s1 P (initState q)
  have e2 : (runFor P q).s2 = valNode P (genNode P (initState q)) :=
    runGraph_s2 P (initState q)
  have e4 : (runFor P q).final =
      if shouldExecute (valNode P (genNode P (initState q))) then
        execNode P (valNode P (genNode P (initState q)))
      else valNode P (genNode P (initState q)) := runGraph_final P (initState q)
  refine ⟨?_, ?_, ?_⟩
  · rw [processQuestion_eq]
    split
    · rfl
    · split <;> rfl
  · by_cases hcond1 : strTruthy (runFor P q).final.error = true
    · rw [processQuestion_eq, if_pos hcond1]
      intro _
      exact strTruthy_iff.mp hcond1
    · by_cases hcond2 : (strTruthy (runFor P q).final.sql_query &&
        !((runFor P q).final.is_valid == some true)) = true
      swap
      · rw [processQuestion_eq, if_neg hcond1, if_neg hcond2]
        intro hfalse
        simp at hfalse
      · intro _
        exfalso
        by_cases hx : shouldExecute (valNode P (genNode P (initState q))) = true
        · obtain ⟨c, hcne, hsq, herr, hiv, hsel⟩ := executed_facts P q hx
          have hfin : (runFor P q).final =
              execNode P (valNode P (genNode P (initState q))) := by
            rw [e4, if_pos hx]
          cases hE : P.exec c with
          | error e =>
            apply hcond1
            rw [hfin, execNode_error_case hsq hcne hE]
            exact strTruthy_iff.mpr ⟨_, rfl, str_append_ne_empty _ (by decide)⟩
          | ok res =>
            rw [hfin, execNode_ok_select hsq hcne hE hsel] at hcond2
            simp at hcond2
            exact hcond2.2 hiv
        · have hxf : shouldExecute (valNode P (genNode P (initState q))) = false := by
            revert hx
            cases shouldExecute (valNode P (genNode P (initState q))) <;> simp
          have hfin : (runFor P q).final = valNode P (genNode P (initState q)) := by
            rw [e4, hxf]
            simp
          cases hP : P.llm with
          | error e =>
            rw [hfin, genNode_error hP, valNode_none rfl] at hcond2
            simp [strTruthy] at hcond2
          | ok resp =>
            by_cases hresp : stripStr resp = ""
            · rw [hfin, genNode_empty hP hresp, valNode_none rfl] at hcond2
              simp [strTruthy] at hcond2
            · have hcne := cleanStr_strip_ne_empty hresp
              cases hv : (validateSql P.explain (cleanStr (stripStr resp))).is_valid with
              | true =>
                apply hx
                unfold shouldExecute
                rw [genNode_ok hP hresp, valNode_some rfl hcne]
                simp [hv]
              | false =>
                apply hcond1
                obtain ⟨mm, hmm, hmmne⟩ := validateSql_invalid hv
                rw [hfin, genNode_ok hP hresp, valNode_some rfl hcne]
                exact strTruthy_iff.mpr ⟨mm, by simpa using hmm, hmmne⟩
  · intro c hsq hinv
    rw [e1] at hsq
    rw [e2] at hinv
    cases hP : P.llm with
    | error e =>
      rw [genNode_error hP] at hsq
      simp at hsq
    | ok resp =>
      by_cases hresp : stripStr resp = ""
      · rw [genNode_empty hP hresp] at hsq
        simp at hsq
      · have hcne := cleanStr_strip_ne_empty hresp
        rw [genNode_ok hP hresp] at hsq
        have hceq : cleanStr (stripStr resp) = c := by simpa using hsq
        rw [genNode_ok hP hresp, valNode_some rfl hcne] at hinv
        have hv : (validateSql P.explain (cleanStr (stripStr resp))).is_valid = false := by
          simpa using hinv
        obtain ⟨mm, hmm, hmmne⟩ := validateSql_invalid hv
        have hs2err : (valNode P (genNode P (initState q))).error = some mm := by
          rw [genNode_ok hP hresp, valNode_some rfl hcne]
          simpa using hmm
        have hs2sql : (valNode P (genNode P (initState q))).sql_query = some c := by
          rw [genNode_ok hP hresp, valNode_some rfl hcne]
          simp [hceq]
        have hxf : shouldExecute (valNode P (genNode P (initState q))) = false := by
          unfold shouldExecute
          rw [genNode_ok hP hresp, valNode_some rfl hcne]
          simp [hv]
        have hfin : (runFor P q).final = valNode P (genNode P (initState q)) := by
          rw [e4, hxf]
          simp
        have hfinerr : strTruthy (runFor P q).final.error = true := by
          rw [hfin, hs2err]
          exact strTruthy_iff.mpr ⟨mm, rfl, hmmne⟩
        rw [processQuestion_eq, if_pos hfinerr]
        refine ⟨rfl, ?_, ?_, ?_⟩
        · show (runFor P q).final.sql_query = some c
          rw [hfin]
          exact hs2sql
        · show (runFor P q).final.error = (runFor P q).s2.error
          rw [hfin, e2]
        · rw [e2, hs2err]
          exact ⟨mm, rfl, hmmne⟩

/-- Witness for C6 at a run whose candidate is rejected by the table
whitelist: the rejected SQL text and the reason are reported. -/
theorem C6_structured_result_and_rejection_reporting_witness :
    (runFor pNoTable "q").s1.sql_query = some "SELECT 1" ∧
    (runFor pNoTable "q").s2.is_valid = some false ∧
    ((processQuestion pNoTable "q").success = false ∧
     (processQuestion pNoTable "q").sql_query = some "SELECT 1" ∧
     (processQuestion pNoTable "q").error = (runFor pNoTable "q").s2.error ∧
     errTruthy (runFor pNoTable "q").s2.error) :=
  ⟨by decide, by decide,
   (C6_structured_result_and_rejection_reporting pNoTable "q").2.2 "SELECT 1"
     (by decide) (by decide)⟩

end QueryCraft
